import Mathlib

/-!
Verification of the devbox resource-transition orchestrator.

This file gives a shallow embedding, in Lean 4, of the core algorithms of the
devbox CLI (spot-instance resize/replace, volume relocation, capacity
discovery, retry and polling primitives, and the NixOS user-data patcher),
translated from the Go source, together with theorems settling the stated
properties of those algorithms.

Modelling conventions:
- Go byte strings are modelled as lists of byte values (GoStr := List Nat);
  machine integers and timestamps are Nat; spot prices are exact rationals
  (Go parses decimal price strings into numbers and only compares them).
- The EC2 control plane is modelled as an explicit state (lists of
  instances, spot requests, volumes) threaded through each operation;
  every mutating API call is recorded in a trace, and call sites that can
  fail get an explicit fault flag so failure at any point is expressible.
- Time-based polling loops are modelled with an explicit fuel that is large
  enough to reach the deadline; polls observe a given observation function.
-/

/-! ## Go string primitives (byte-level, as in the Go runtime) -/

/-- Byte strings: a Go string is a sequence of bytes. -/
abbrev GoStr := List Nat

/-- Byte string of an ASCII Lean string literal. -/
def str (s : String) : GoStr := s.data.map Char.toNat

/-- Go strings.Contains: does pat occur as a contiguous substring of s. -/
def containsSub : GoStr → GoStr → Bool
  | [], pat => pat.isEmpty
  | s@(_ :: rest), pat => pat.isPrefixOf s || containsSub rest pat

/-- Go strings.Replace with n = 1: replace the first occurrence of old in s
by new (if old is empty, new is prepended, as in Go). -/
def replaceFirst : GoStr → GoStr → GoStr → GoStr
  | [], old, new => if old.isEmpty then new else []
  | s@(c :: rest), old, new =>
    if old.isPrefixOf s then new ++ s.drop old.length
    else c :: replaceFirst rest old new

/-- Go strings.Index: index of the first occurrence of pat in s (none for -1). -/
def indexOfSub : GoStr → GoStr → Option Nat
  | [], pat => if pat.isEmpty then some 0 else none
  | s@(_ :: rest), pat =>
    if pat.isPrefixOf s then some 0 else (indexOfSub rest pat).map (· + 1)

/-! ## ConsistencyRetrier: startInstances (src/cmd/start.go)

startInstances is modelled over an arbitrary sequence of outcomes of the
StartInstances control-plane call: outcome i is none when attempt i
succeeds and some e when it fails with error text e. The model returns the
final result, the list of sleep durations performed (seconds), and the
number of attempts made. -/

/-- Transient-error signature match of start.go line 36:
strings.Contains(err.Error(), "IncorrectSpotRequestState"). -/
def spotStateRetryable (e : GoStr) : Bool :=
  containsSub e (str "IncorrectSpotRequestState")

/-- Result of a run of startInstances: final outcome, sleeps performed
(in seconds), and number of StartInstances attempts issued. -/
structure StartRun where
  result : Except GoStr Unit
  sleeps : List Nat
  attempts : Nat

/-- Retry loop body of startInstances (start.go lines 29-42): attempt is the
current value of the loop counter, the fuel is the number of remaining loop
iterations permitted by the loop bound (6 - attempt). -/
def startGo (outcome : Nat → Option GoStr) (attempt : Nat) : Nat → StartRun
  | 0 => ⟨.error [], [], attempt⟩
  | fuel + 1 =>
    match outcome attempt with
    | none => ⟨.ok (), [], attempt + 1⟩
    | some e =>
      if spotStateRetryable e && decide (attempt < 5) then
        let r := startGo outcome (attempt + 1) fuel
        ⟨r.result, 10 :: r.sleeps, r.attempts⟩
      else ⟨.error e, [], attempt + 1⟩

/-- startInstances (start.go lines 24-51): up to 6 attempts starting at 0. -/
def startInstances (outcome : Nat → Option GoStr) : StartRun :=
  startGo outcome 0 6

/-! ## StatePoller (pollSnapshotState, src/cmd/volume.go lines 550-581 and
PollVolumeState, src/internal/awsutil lines 82-99)

Both pollers are modelled over an observation function: obs i is what the
describe call reports at the i-th poll. The i-th poll happens at time
i * interval after the deadline clock started, and the deadline check
time.Now().After(deadline) is timeout < i * interval. -/

/-- Observation of a snapshot at one poll. -/
inductive SnapObs where
  | apiError (e : String)
  | missing
  | snap (state : String) (progress : Option String) (stateMessage : Option String)

/-- Observation of a volume at one poll. -/
inductive VolObs where
  | apiError (e : String)
  | missing
  | vol (state : String)

/-- Outcome of a polling loop. -/
inductive PollOutcome where
  | ok
  | timeoutErr
  | apiErr (e : String)
  | snapFailed (msg : Option String)
  deriving DecidableEq

/-- Loop of pollSnapshotState: deadline check, describe, success on the
desired state, immediate failure (with the provider message) on the
"error" state, otherwise sleep interval and repeat. -/
def pollSnapGo (obs : Nat → SnapObs) (desired : String) (interval timeout : Nat)
    (i : Nat) : Nat → PollOutcome
  | 0 => .timeoutErr
  | fuel + 1 =>
    if timeout < i * interval then .timeoutErr
    else
      match obs i with
      | .apiError e => .apiErr e
      | .missing => pollSnapGo obs desired interval timeout (i + 1) fuel
      | .snap st _ msg =>
        if st = desired then .ok
        else if st = "error" then .snapFailed msg
        else pollSnapGo obs desired interval timeout (i + 1) fuel

/-- pollSnapshotState (volume.go lines 550-581). -/
def pollSnapshotState (obs : Nat → SnapObs) (desired : String)
    (interval timeout : Nat) : PollOutcome :=
  pollSnapGo obs desired interval timeout 0 (timeout / interval + 2)

/-- Loop of PollVolumeState: deadline check, describe, success once the
desired state is observed, otherwise sleep interval and repeat. There is no
failure-state check in this poller. -/
def pollVolGo (obs : Nat → VolObs) (desired : String) (interval timeout : Nat)
    (i : Nat) : Nat → PollOutcome
  | 0 => .timeoutErr
  | fuel + 1 =>
    if timeout < i * interval then .timeoutErr
    else
      match obs i with
      | .apiError e => .apiErr e
      | .missing => pollVolGo obs desired interval timeout (i + 1) fuel
      | .vol st =>
        if st = desired then .ok
        else pollVolGo obs desired interval timeout (i + 1) fuel

/-- PollVolumeState (awsutil, lines 82-99). -/
def PollVolumeState (obs : Nat → VolObs) (desired : String)
    (interval timeout : Nat) : PollOutcome :=
  pollVolGo obs desired interval timeout 0 (timeout / interval + 2)

/-! ## CapacityDiscoveryEngine (src/internal/awsutil, FetchInstanceTypes and
FetchSpotPrices; src/cmd/search.go runSearch; src/cmd/recover.go
recoverInstance)

The instance-type catalog and the spot price history are inputs: the
DescribeInstanceTypes API is modelled as filtering a catalog, and
DescribeSpotPriceHistory as filtering a history list by the requested
types and start time. Prices are exact rationals. -/

/-- Catalog row of DescribeInstanceTypes, with the attributes the API
filters on (supported-usage-class spot, current-generation, architecture). -/
structure CatalogType where
  name : String
  arch : String
  supportsSpot : Bool
  currentGeneration : Bool
  vcpus : Nat
  memoryMiB : Nat
  hasGPU : Bool
  networkPerformance : String
  deriving DecidableEq

/-- InstanceTypeInfo as returned by FetchInstanceTypes. -/
structure InstanceTypeInfo where
  name : String
  vcpus : Nat
  memoryMiB : Nat
  hasGPU : Bool
  networkPerformance : String
  deriving DecidableEq

/-- One spot price history record (instance type, availability zone,
observation timestamp in seconds, price). -/
structure SpotObs where
  instanceType : String
  az : String
  timestamp : Nat
  price : ℚ
  deriving DecidableEq

/-- SpotSearchResult as produced by FetchSpotPrices. -/
structure SpotSearchResult where
  instanceType : String
  vcpus : Nat
  memoryMiB : Nat
  az : String
  price : ℚ
  gpu : Bool
  networkPerformance : String
  deriving DecidableEq

/-- FetchInstanceTypes: the API-side filters (spot usage class,
current generation, architecture) followed by the in-code vCPU / memory /
GPU filters. Go computes minMemMiB = int64(minMem * 1024), a truncation of
the exact product, modelled by the floor. -/
def FetchInstanceTypes (catalog : List CatalogType) (arch : String)
    (minVCPU : Nat) (minMemGiB : ℚ) (requireGPU : Bool) : List InstanceTypeInfo :=
  let minMemMiB : ℤ := Int.floor (minMemGiB * 1024)
  (catalog.filter (fun t =>
      t.supportsSpot && t.currentGeneration && t.arch == arch
      && !decide (t.vcpus < minVCPU)
      && !decide ((t.memoryMiB : ℤ) < minMemMiB)
      && (!requireGPU || t.hasGPU))).map
    (fun t => ⟨t.name, t.vcpus, t.memoryMiB, t.hasGPU, t.networkPerformance⟩)

/-- Key of the latest-price map: (instance type, availability zone). -/
structure PriceKey where
  itype : String
  az : String
  deriving DecidableEq

/-- Chunking a list into groups of n (n assumed positive), with explicit
fuel so the definition is structural. -/
def chunksGo {α : Type} (n : Nat) : Nat → List α → List (List α)
  | 0, _ => []
  | _, [] => []
  | fuel + 1, l => l.take n :: chunksGo n fuel (l.drop n)

/-- Batches of at most n elements, as FetchSpotPrices batches its
instance-type names 100 at a time. -/
def chunksOf {α : Type} (n : Nat) (l : List α) : List (List α) :=
  chunksGo n l.length l

/-- DescribeSpotPriceHistory for one batch: the records whose instance type
is in the batch and whose timestamp is not before the start time. -/
def spotHistoryQuery (history : List SpotObs) (batch : List String)
    (startTime : Nat) : List SpotObs :=
  history.filter (fun o => batch.contains o.instanceType && decide (startTime ≤ o.timestamp))

/-- Map update of FetchSpotPrices lines 130-133: keep the existing entry
unless the new observation's timestamp is strictly later (Timestamp.After). -/
def insertLatest : List (PriceKey × SpotObs) → PriceKey → SpotObs → List (PriceKey × SpotObs)
  | [], k, o => [(k, o)]
  | (k', o') :: rest, k, o =>
    if k' = k then
      if o'.timestamp < o.timestamp then (k, o) :: rest else (k', o') :: rest
    else (k', o') :: insertLatest rest k o

/-- Per-record step of the FetchSpotPrices loop (lines 125-134): skip the
record when a zone filter is given and does not match, otherwise fold it
into the latest-price map. -/
def processObs (azFilter : String) (m : List (PriceKey × SpotObs)) (o : SpotObs) :
    List (PriceKey × SpotObs) :=
  if azFilter ≠ "" && o.az ≠ azFilter then m
  else insertLatest m ⟨o.instanceType, o.az⟩ o

/-- Lookup in the infoMap built at lines 90-95 (a Go map: a later entry
with the same name overwrites an earlier one; a missing name yields the
zero value). -/
def infoLookup (its : List InstanceTypeInfo) (name : String) : InstanceTypeInfo :=
  ((its.filter (fun it => it.name == name)).getLast?).getD ⟨"", 0, 0, false, ""⟩

/-- FetchSpotPrices (awsutil, lines 88-153): batch the requested types,
query the trailing one-hour window of price history per batch, keep the
latest observation per (type, zone) pair (restricted to the zone filter if
given), then assemble one SpotSearchResult per map entry. -/
def FetchSpotPrices (instanceTypes : List InstanceTypeInfo) (azFilter : String)
    (history : List SpotObs) (now : Nat) : List SpotSearchResult :=
  let typeNames := instanceTypes.map (fun it => it.name)
  let startTime := now - 3600
  let batches := chunksOf 100 typeNames
  let latest := batches.foldl
    (fun m batch => (spotHistoryQuery history batch startTime).foldl (processObs azFilter) m)
    []
  latest.map (fun kv =>
    let info := infoLookup instanceTypes kv.1.itype
    ⟨kv.1.itype, info.vcpus, info.memoryMiB, kv.1.az, kv.2.price, info.hasGPU,
      info.networkPerformance⟩)

/-- Sorting by le (the model of Go sort.Slice with the corresponding less
function: the result is a permutation of the input, sorted by le). -/
def sortByLe {α : Type} (le : α → α → Bool) (l : List α) : List α :=
  List.insertionSort (fun a b => le a b = true) l

/-- Price order on search results. -/
def priceLE (a b : SpotSearchResult) : Bool := decide (a.price ≤ b.price)

/-- Steps 3-4 of runSearch (search.go lines 84-107): drop offers above the
price ceiling when one is given, then sort ascending by the chosen key
(price unless "vcpu" or "mem" is selected). -/
def runSearchFilterSort (results : List SpotSearchResult) (maxPrice : ℚ)
    (sortKey : String) : List SpotSearchResult :=
  let results :=
    if 0 < maxPrice then results.filter (fun r => decide (r.price ≤ maxPrice)) else results
  match sortKey with
  | "vcpu" => sortByLe (fun a b => decide (a.vcpus ≤ b.vcpus)) results
  | "mem" => sortByLe (fun a b => decide (a.memoryMiB ≤ b.memoryMiB)) results
  | _ => sortByLe priceLE results

/-- Candidate computation of recoverInstance (recover.go lines 105-158):
derive the search constraints (50% of the current specs unless overridden),
find candidate types, fetch spot prices filtered to the instance's zone,
apply the price ceiling, and sort ascending by price. The displayed list is
the first 10 entries of the result and the auto-chosen candidate its head. -/
def recoverCandidates (catalog : List CatalogType) (history : List SpotObs) (now : Nat)
    (currentVCPUs currentMemMiB : Nat) (hasGPU : Bool) (arch az : String)
    (minVCPUFlag : Nat) (minMemFlag maxPriceFlag defaultMaxPriceCfg : ℚ) :
    List SpotSearchResult :=
  let minVCPU := if 0 < minVCPUFlag then minVCPUFlag else currentVCPUs / 2
  let minMem := if 0 < minMemFlag then minMemFlag else (currentMemMiB : ℚ) / 1024 / 2
  let dmp := if 0 < maxPriceFlag then maxPriceFlag else defaultMaxPriceCfg
  let candidates := FetchInstanceTypes catalog arch minVCPU minMem hasGPU
  let results := FetchSpotPrices candidates az history now
  let results :=
    if 0 < dmp then results.filter (fun r => decide (r.price ≤ dmp)) else results
  sortByLe priceLE results

/-! ## base64 (Go encoding/base64 StdEncoding, as used by FetchUserData and
patchNixOSUserData)

Encoding maps 3 bytes to 4 alphabet characters with = padding; decoding
ignores carriage returns and newlines, requires a multiple of 4 characters,
accepts = padding only at the end, and rejects characters outside the
alphabet. -/

/-- Alphabet character (byte value) of a 6-bit group. -/
def b64Char (n : Nat) : Nat :=
  if n < 26 then 65 + n
  else if n < 52 then 97 + (n - 26)
  else if n < 62 then 48 + (n - 52)
  else if n = 62 then 43
  else 47

/-- Value of an alphabet character, none for a character outside the
alphabet (including the padding character =, byte 61). -/
def b64Index (c : Nat) : Option Nat :=
  if 65 ≤ c ∧ c ≤ 90 then some (c - 65)
  else if 97 ≤ c ∧ c ≤ 122 then some (26 + (c - 97))
  else if 48 ≤ c ∧ c ≤ 57 then some (52 + (c - 48))
  else if c = 43 then some 62
  else if c = 47 then some 63
  else none

/-- Standard base64 encoding of a byte sequence. -/
def b64Encode : List Nat → List Nat
  | [] => []
  | [b1] => [b64Char (b1 / 4), b64Char (b1 % 4 * 16), 61, 61]
  | [b1, b2] => [b64Char (b1 / 4), b64Char (b1 % 4 * 16 + b2 / 16), b64Char (b2 % 16 * 4), 61]
  | b1 :: b2 :: b3 :: rest =>
    b64Char (b1 / 4) :: b64Char (b1 % 4 * 16 + b2 / 16) ::
      b64Char (b2 % 16 * 4 + b3 / 64) :: b64Char (b3 % 64) :: b64Encode rest

/-- Decoding of 4-character quantums with = padding allowed only in the
final quantum. -/
def b64DecodeQuantums : List Nat → Option (List Nat)
  | [] => some []
  | c1 :: c2 :: c3 :: c4 :: rest =>
    match b64Index c1, b64Index c2 with
    | some a, some b =>
      if c3 = 61 then
        if c4 = 61 ∧ rest = [] then some [a * 4 + b / 16] else none
      else
        match b64Index c3 with
        | some c =>
          if c4 = 61 then
            if rest = [] then some [a * 4 + b / 16, b % 16 * 16 + c / 4] else none
          else
            match b64Index c4 with
            | some d =>
              (b64DecodeQuantums rest).map
                (fun tail => (a * 4 + b / 16) :: (b % 16 * 16 + c / 4) :: (c % 4 * 64 + d) :: tail)
            | none => none
        | none => none
    | _, _ => none
  | _ => none

/-- Standard base64 decoding: strip carriage returns and newlines, then
decode quantums; none models a decode error. -/
def b64Decode (s : List Nat) : Option (List Nat) :=
  b64DecodeQuantums (s.filter (fun c => !(c == 13) && !(c == 10)))

/-! ## patchNixOSUserData (src/cmd/resize.go lines 419-462) -/

/-- Function-argument header the modulesPath patch looks for. -/
def nixArgsOld : GoStr := str "\x7b config, pkgs, lib, ... \x7d:"

/-- Function-argument header with modulesPath added. -/
def nixArgsNew : GoStr := str "\x7b config, pkgs, lib, modulesPath, ... \x7d:"

/-- Anchor the amazon-image import is inserted after. -/
def braceAnchor : GoStr := str "\n\x7b\n"

/-- Replacement inserting the amazon-image.nix import after the anchor. -/
def importsInsert : GoStr :=
  str "\n\x7b\n  imports = [ \"$\x7bmodulesPath\x7d/virtualisation/amazon-image.nix\" ];\n"

/-- Lowercase hexadecimal digit byte. -/
def hexDigit (n : Nat) : Nat := if n < 10 then 48 + n else 87 + n

/-- Escape of one byte under Go percent-q string quoting, modelled at the
byte level for the ASCII range (quotes and backslashes are escaped,
printable ASCII is kept, common control characters use their two-character
escapes, anything else becomes a hexadecimal escape). -/
def goQuoteChar (c : Nat) : List Nat :=
  if c = 34 then [92, 34]
  else if c = 92 then [92, 92]
  else if c = 7 then [92, 97]
  else if c = 8 then [92, 98]
  else if c = 9 then [92, 116]
  else if c = 10 then [92, 110]
  else if c = 11 then [92, 118]
  else if c = 12 then [92, 102]
  else if c = 13 then [92, 114]
  else if 32 ≤ c ∧ c ≤ 126 then [c]
  else [92, 120, hexDigit (c / 16 % 16), hexDigit (c % 16)]

/-- Go fmt percent-q of a string: double quotes around the escaped bytes. -/
def goQuote (s : GoStr) : GoStr := 34 :: (s.flatMap goQuoteChar ++ [34])

/-- Hostname line inserted by the hostname patch:
two spaces, networking.hostName = , the quoted hostname, semicolon, newline. -/
def hostLine (hostname : GoStr) : GoStr :=
  str "  networking.hostName = " ++ goQuote hostname ++ str ";\n"

/-- Ensure modulesPath is in the function args (resize.go lines 432-436). -/
def modulesPathPatch (s : GoStr) : GoStr :=
  if containsSub s (str "modulesPath") then s
  else replaceFirst s nixArgsOld nixArgsNew

/-- Ensure the amazon-image.nix import exists (resize.go lines 439-443). -/
def amazonImagePatch (s : GoStr) : GoStr :=
  if containsSub s (str "amazon-image.nix") then s
  else replaceFirst s braceAnchor importsInsert

/-- Hostname chosen by the hostname patch: the spawn name, or
dev-workstation when it is empty. -/
def hostnameOf (spawnName : GoStr) : GoStr :=
  if spawnName = [] then str "dev-workstation" else spawnName

/-- Ensure networking.hostName is set (resize.go lines 446-459): insert the
hostname line after the line containing the first imports = [ anchor. -/
def hostNamePatch (spawnName : GoStr) (s : GoStr) : GoStr :=
  if containsSub s (str "networking.hostName") then s
  else
    match indexOfSub s (str "imports = [") with
    | none => s
    | some idx =>
      match indexOfSub (s.drop idx) (str "\n") with
      | none => s
      | some nl =>
        let pos := idx + nl + 1
        s.take pos ++ hostLine (hostnameOf spawnName) ++ s.drop pos

/-- Content pipeline of patchNixOSUserData: the three guarded insertions in
source order. -/
def nixPipeline (spawnName : GoStr) (s : GoStr) : GoStr :=
  hostNamePatch spawnName (amazonImagePatch (modulesPathPatch s))

/-- patchNixOSUserData (resize.go lines 419-462): decode the base64 blob
(returning the input unchanged on a decode error), return the input
unchanged unless the content looks like a NixOS config, otherwise apply the
three guarded insertions and re-encode. -/
def patchNixOSUserData (b64data : GoStr) (spawnName : GoStr) : GoStr :=
  match b64Decode b64data with
  | none => b64data
  | some content =>
    if containsSub content (str "config, pkgs") = false then b64data
    else b64Encode (nixPipeline spawnName content)

/-! ## InstanceResizeOrchestrator (src/cmd/resize.go)

The EC2 control plane is a Cloud value; each operation returns the result,
the updated cloud, and the trace of mutating calls it issued (in order).
Each fallible call site has a fault flag; read-only describe calls read the
cloud state. A stop call moves the instance to stopping and its successful
waiter to stopped (and likewise for terminate and start), so a failure
between call and wait leaves the intermediate state visible. -/

/-- Volume as seen by the control plane. -/
structure CVolume where
  id : String
  state : String
  az : String
  attachedTo : Option (String × String)
  deriving DecidableEq

/-- Spot instance request. -/
structure CSpotRequest where
  id : String
  spotPrice : Option String
  state : String
  deriving DecidableEq

/-- Instance as returned by DescribeInstances. -/
structure CInstance where
  id : String
  instType : String
  state : String
  az : String
  spotRequestId : Option String
  imageId : String
  keyName : String
  subnetId : String
  securityGroups : List String
  iamArn : Option String
  rootDeviceName : String
  blockDeviceMappings : List (String × String)
  tags : List (String × String)
  userData : GoStr
  deriving DecidableEq

/-- Control-plane state. -/
structure Cloud where
  instances : List CInstance
  spotRequests : List CSpotRequest
  volumes : List CVolume
  nextId : Nat
  deriving DecidableEq

/-- Block-device mapping in a RunInstances request. -/
structure BdmSpec where
  device : String
  volumeType : String
  volumeSize : Nat
  deriving DecidableEq

/-- Mutating control-plane calls, as recorded in the trace. -/
inductive ApiCall where
  | stopInstances (ids : List String)
  | modifyInstanceType (id newType : String)
  | modifyUserData (id : String)
  | startInstances (ids : List String)
  | runInstances (instType : String) (bdms : List BdmSpec)
  | cancelSpotRequests (ids : List String)
  | detachVolume (volumeId instanceId : String)
  | attachVolume (volumeId instanceId device : String)
  | terminateInstances (ids : List String)
  | upsertDNS (instanceId : String)
  deriving DecidableEq

/-- Fault injection: one flag per fallible call site of the resize paths. -/
structure Faults where
  stopOld : Bool
  stopOldWait : Bool
  fetchUserData : Bool
  describeSpotReq : Bool
  runInstances : Bool
  runWait : Bool
  stopNew : Bool
  stopNewWait : Bool
  modifyUserData : Bool
  cancelSpot : Bool
  detachVolume : Bool
  detachWait : Bool
  terminate : Bool
  terminateWait : Bool
  attachVolume : Bool
  attachWait : Bool
  startNew : Bool
  startWait : Bool
  dns : Bool
  modifyAttr : Bool
  deriving DecidableEq

/-- Fault specification with every call succeeding. -/
def noFaults : Faults :=
  ⟨false, false, false, false, false, false, false, false, false, false,
   false, false, false, false, false, false, false, false, false, false⟩

/-- Result triple of an orchestrator run. -/
abbrev ResizeM := Except String Unit × Cloud × List ApiCall

/-- DescribeInstances by id. -/
def lookupInstance (c : Cloud) (id : String) : Option CInstance :=
  c.instances.find? (fun i => i.id == id)

/-- DescribeSpotInstanceRequests by id. -/
def lookupSpotRequest (c : Cloud) (id : String) : Option CSpotRequest :=
  c.spotRequests.find? (fun r => r.id == id)

/-- State transition of one instance. -/
def setInstanceState (c : Cloud) (id st : String) : Cloud :=
  { c with instances :=
      c.instances.map (fun i => if i.id = id then { i with state := st } else i) }

/-- Instance-type attribute modification. -/
def setInstanceType (c : Cloud) (id t : String) : Cloud :=
  { c with instances :=
      c.instances.map (fun i => if i.id = id then { i with instType := t } else i) }

/-- user_data attribute replacement. -/
def setInstanceUserData (c : Cloud) (id : String) (d : GoStr) : Cloud :=
  { c with instances :=
      c.instances.map (fun i => if i.id = id then { i with userData := d } else i) }

/-- CancelSpotInstanceRequests effect. -/
def cancelSpotReqApply (c : Cloud) (sid : String) : Cloud :=
  { c with spotRequests :=
      c.spotRequests.map (fun r => if r.id = sid then { r with state := "cancelled" } else r) }

/-- DetachVolume effect: volume becomes available and unattached. -/
def detachVolApply (c : Cloud) (vid : String) : Cloud :=
  { c with volumes :=
      c.volumes.map (fun v =>
        if v.id = vid then { v with state := "available", attachedTo := none } else v) }

/-- AttachVolume effect: volume becomes in-use at the given device. -/
def attachVolApply (c : Cloud) (vid iid dev : String) : Cloud :=
  { c with volumes :=
      c.volumes.map (fun v =>
        if v.id = vid then { v with state := "in-use", attachedTo := some (iid, dev) } else v) }

/-- Fresh instance id for a launch. -/
def mkInstId (n : Nat) : String := "i-new" ++ Nat.repr n

/-- Fresh spot request id for a persistent spot launch. -/
def mkSirId (n : Nat) : String := "sir-new" ++ Nat.repr n

/-- Non-root attached volumes of an instance (resize.go lines 202-223):
block-device mappings whose device differs from the root device name,
as (volume id, device) pairs. -/
def extraVolumesOf (inst : CInstance) : List (String × String) :=
  (inst.blockDeviceMappings.filter (fun bd => bd.1 ≠ inst.rootDeviceName)).map
    (fun bd => (bd.2, bd.1))

/-- Tags carried to the replacement (resize.go lines 194-200): all tags
whose key does not start with the provider-reserved aws: prefix. -/
def instanceTagsOf (inst : CInstance) : List (String × String) :=
  inst.tags.filter (fun t => !("aws:".isPrefixOf t.1))

/-- Name tag of an instance (awsutil NameTag): the value of the Name tag,
or a dash when absent. -/
def nameTag (tags : List (String × String)) : String :=
  ((tags.find? (fun t => t.1 == "Name")).map (fun t => t.2)).getD "-"

/-- Block-device mappings of the replacement launch (resize.go lines
245-253): a single fresh 75 GiB gp3 root volume at /dev/xvda. -/
def launchBDMs : List BdmSpec := [⟨"/dev/xvda", "gp3", 75⟩]

/-- Step 1 of both resize paths: stop the instance when running or pending
and wait for it to stop; an instance in any other non-stopped state is an
error (resize.go lines 61-78 and 125-142). -/
def stopOldPhase (f : Faults) (instanceID state : String) (c : Cloud) : ResizeM :=
  if state = "running" || state = "pending" then
    if f.stopOld then (.error "stopping instance", c, [.stopInstances [instanceID]])
    else
      let c1 := setInstanceState c instanceID "stopping"
      if f.stopOldWait then
        (.error "waiting for instance to stop", c1, [.stopInstances [instanceID]])
      else (.ok (), setInstanceState c1 instanceID "stopped", [.stopInstances [instanceID]])
  else if state = "stopped" then (.ok (), c, [])
  else (.error "instance state does not permit resize", c, [])

/-- user_data gathered for the relaunch (resize.go lines 170-179): empty on
a fetch failure (a warning in the source), patched when non-empty. -/
def gatherUserData (f : Faults) (inst : CInstance) : GoStr :=
  let userData := if f.fetchUserData then [] else inst.userData
  if userData ≠ [] then patchNixOSUserData userData (str (nameTag inst.tags)) else userData

/-- Spot max price for the relaunch (resize.go lines 181-192): the price of
the original spot request when it can be read, else the configured default. -/
def spotMaxPrice (f : Faults) (dcfgDefault : String) (inst : CInstance) (c : Cloud) : String :=
  match inst.spotRequestId with
  | none => dcfgDefault
  | some sid =>
    if f.describeSpotReq then dcfgDefault
    else
      match lookupSpotRequest c sid with
      | some r => r.spotPrice.getD dcfgDefault
      | none => dcfgDefault

/-- Launch of the replacement (resize.go lines 231-279): a persistent spot
instance of the new type in the original's subnet with the captured
parameters, the fixed fresh root volume mapping, and the filtered tags. -/
def launchApply (c : Cloud) (inst : CInstance) (newType : String) (userData : GoStr)
    (maxPrice : String) : Cloud × String :=
  let newId := mkInstId c.nextId
  let sirId := mkSirId c.nextId
  let newInst : CInstance :=
    { id := newId, instType := newType, state := "pending", az := inst.az,
      spotRequestId := some sirId, imageId := inst.imageId, keyName := inst.keyName,
      subnetId := inst.subnetId, securityGroups := inst.securityGroups,
      iamArn := inst.iamArn, rootDeviceName := "/dev/xvda",
      blockDeviceMappings := [("/dev/xvda", "vol-root" ++ Nat.repr c.nextId)],
      tags := instanceTagsOf inst, userData := userData }
  ({ c with
      instances := c.instances ++ [newInst],
      spotRequests := c.spotRequests ++ [⟨sirId, some maxPrice, "open"⟩],
      nextId := c.nextId + 1 }, newId)

/-- Detach loop (resize.go lines 339-348): issue a DetachVolume call per
non-root volume, aborting on the first failure. -/
def detachPhase (f : Faults) (instanceID : String) :
    List (String × String) → Cloud → ResizeM
  | [], c => (.ok (), c, [])
  | (vid, _dev) :: rest, c =>
    if f.detachVolume then (.error "detaching volume", c, [.detachVolume vid instanceID])
    else
      let c1 := detachVolApply c vid
      let r := detachPhase f instanceID rest c1
      (r.1, r.2.1, .detachVolume vid instanceID :: r.2.2)

/-- Detach poll loop (resize.go lines 349-353): wait for each detached
volume to become available; read-only, fails when the poll fault is set. -/
def detachWaitPhase (f : Faults) (vols : List (String × String)) (c : Cloud) : ResizeM :=
  match vols with
  | [] => (.ok (), c, [])
  | _ :: _ =>
    if f.detachWait then (.error "waiting for volume to detach", c, []) else (.ok (), c, [])

/-- Attach loop (resize.go lines 372-388): attach each volume to the new
instance at its original device; a failure is a warning and the loop
continues, as is the subsequent in-use poll. -/
def attachPhase (f : Faults) (newID : String) :
    List (String × String) → Cloud → Cloud × List ApiCall
  | [], c => (c, [])
  | (vid, dev) :: rest, c =>
    let c1 := if f.attachVolume then c else attachVolApply c vid newID dev
    let r := attachPhase f newID rest c1
    (r.1, .attachVolume vid newID dev :: r.2)

/-- Steps 7-11 of the replace-migrate path (resize.go lines 338-413):
detach the non-root volumes from the original and wait, terminate the
original and wait, attach the volumes to the replacement (best effort),
start the replacement and wait, update DNS (best effort). The returned
trace is this phase's own calls; the caller prepends the earlier trace. -/
def finishMigration (f : Faults) (inst : CInstance) (newID : String)
    (extraVols : List (String × String)) (c : Cloud) : ResizeM :=
  match detachPhase f inst.id extraVols c with
  | (.error e, c1, tr1) => (.error e, c1, tr1)
  | (.ok _, c1, tr1) =>
    match detachWaitPhase f extraVols c1 with
    | (.error e, c2, _) => (.error e, c2, tr1)
    | (.ok _, c2, _) =>
      if f.terminate then
        (.error "terminating old instance", c2, tr1 ++ [.terminateInstances [inst.id]])
      else
        let c3 := setInstanceState c2 inst.id "shutting-down"
        if f.terminateWait then
          (.error "waiting for old instance to terminate", c3,
            tr1 ++ [.terminateInstances [inst.id]])
        else
          let c4 := setInstanceState c3 inst.id "terminated"
          let ar := attachPhase f newID extraVols c4
          let tr2 := tr1 ++ [ApiCall.terminateInstances [inst.id]] ++ ar.2 ++
            [ApiCall.startInstances [newID]]
          if f.startNew then (.error "starting new instance", ar.1, tr2)
          else
            let c5 := setInstanceState ar.1 newID "pending"
            if f.startWait then (.error "waiting for new instance to start", c5, tr2)
            else (.ok (), setInstanceState c5 newID "running", tr2 ++ [.upsertDNS newID])

/-- Steps 5-6 of the replace-migrate path (resize.go lines 292-336): stop
the replacement for the volume swap and wait, push the corrected user_data
(best effort, skipped when the blob does not decode), cancel the original's
spot request. The returned trace is this phase's own calls. -/
def afterConfirm (f : Faults) (inst : CInstance) (newID : String) (userData : GoStr)
    (extraVols : List (String × String)) (c : Cloud) : ResizeM :=
  if f.stopNew then (.error "stopping new instance", c, [.stopInstances [newID]])
  else
    let c1 := setInstanceState c newID "stopping"
    if f.stopNewWait then
      (.error "waiting for new instance to stop", c1, [.stopInstances [newID]])
    else
      let c2 := setInstanceState c1 newID "stopped"
      let s :=
        if userData ≠ [] then
          match b64Decode userData with
          | some _ =>
            if f.modifyUserData then
              (c2, [ApiCall.stopInstances [newID], ApiCall.modifyUserData newID])
            else
              (setInstanceUserData c2 newID userData,
                [ApiCall.stopInstances [newID], ApiCall.modifyUserData newID])
          | none => (c2, [ApiCall.stopInstances [newID]])
        else (c2, [ApiCall.stopInstances [newID]])
      match inst.spotRequestId with
      | some sid =>
        if f.cancelSpot then
          (.error "canceling spot request", s.1, s.2 ++ [.cancelSpotRequests [sid]])
        else
          let fm := finishMigration f inst newID extraVols (cancelSpotReqApply s.1 sid)
          (fm.1, fm.2.1, s.2 ++ [ApiCall.cancelSpotRequests [sid]] ++ fm.2.2)
      | none =>
        let fm := finishMigration f inst newID extraVols s.1
        (fm.1, fm.2.1, s.2 ++ fm.2.2)

/-- resizeSpotInstance (resize.go lines 117-414): stop the original if
needed, gather the launch parameters, launch the replacement before
touching anything else, confirm capacity by waiting for it to run, then
retire the original and migrate the volumes. -/
def resizeSpotInstance (f : Faults) (dcfgDefaultMaxPrice : String) (inst : CInstance)
    (newType : String) (c : Cloud) : ResizeM :=
  match stopOldPhase f inst.id inst.state c with
  | (.error e, c1, tr1) => (.error e, c1, tr1)
  | (.ok _, c1, tr1) =>
    let userData := gatherUserData f inst
    let maxPrice := spotMaxPrice f dcfgDefaultMaxPrice inst c1
    let extraVols := extraVolumesOf inst
    let tr2 := tr1 ++ [.runInstances newType launchBDMs]
    if f.runInstances then
      (.error "launching new instance (old instance is still intact)", c1, tr2)
    else
      let lr := launchApply c1 inst newType userData maxPrice
      if f.runWait then
        (.error "waiting for new instance to start (old instance still intact)", lr.1, tr2)
      else
        let c3 := setInstanceState lr.1 lr.2 "running"
        let ac := afterConfirm f inst lr.2 userData extraVols c3
        (ac.1, ac.2.1, tr2 ++ ac.2.2)

/-- On-demand path of resizeInstance (resize.go lines 60-111): stop, modify
the instance-type attribute, start, wait, best-effort DNS. -/
def onDemandResizePath (f : Faults) (instanceID newType state : String) (c : Cloud) : ResizeM :=
  match stopOldPhase f instanceID state c with
  | (.error e, c1, tr1) => (.error e, c1, tr1)
  | (.ok _, c1, tr1) =>
    let tr := tr1 ++ [.modifyInstanceType instanceID newType]
    if f.modifyAttr then (.error "modifying instance type", c1, tr)
    else
      let c2 := setInstanceType c1 instanceID newType
      let tr := tr ++ [.startInstances [instanceID]]
      if f.startNew then (.error "starting instance", c2, tr)
      else
        let c3 := setInstanceState c2 instanceID "pending"
        if f.startWait then (.error "waiting for instance to start", c3, tr)
        else (.ok (), setInstanceState c3 instanceID "running", tr ++ [.upsertDNS instanceID])

/-- resizeInstance (resize.go lines 33-112): describe the instance, return
success immediately when it already has the requested type, otherwise take
the spot replace-migrate path or the on-demand in-place path. -/
def resizeInstance (f : Faults) (dcfgDefaultMaxPrice : String) (instanceID newType : String)
    (c : Cloud) : ResizeM :=
  match lookupInstance c instanceID with
  | none => (.error "instance not found", c, [])
  | some inst =>
    if inst.instType = newType then (.ok (), c, [])
    else if inst.spotRequestId.isSome then
      resizeSpotInstance f dcfgDefaultMaxPrice inst newType c
    else onDemandResizePath f instanceID newType inst.state c

/-- Destructive calls in the sense of the replace-migrate safety invariant:
cancelling a spot request, detaching a volume, terminating an instance. -/
def destructiveCall : ApiCall → Bool
  | .cancelSpotRequests _ => true
  | .detachVolume _ _ => true
  | .terminateInstances _ => true
  | _ => false

/-! ## VolumeRelocationOrchestrator (src/cmd/volume.go volumeMove)

Volumes and snapshots carry a region; identities are numbers drawn from a
counter. The snapshot and volume polls of the source always reach their
target states in this model (the claim is about the successful path), so
each async step is collapsed to its completed effect. -/

/-- Volume in the volume-relocation model. -/
structure MVolume where
  id : Nat
  size : Nat
  volType : String
  iops : Option Nat
  throughput : Option Nat
  az : String
  region : String
  state : String
  tags : List (String × String)
  deriving DecidableEq

/-- Snapshot in the volume-relocation model. -/
structure MSnapshot where
  id : Nat
  sourceVolume : Nat
  region : String
  state : String
  deriving DecidableEq

/-- Control-plane state for volume relocation. -/
structure VolCloud where
  volumes : List MVolume
  snapshots : List MSnapshot
  nextId : Nat
  deriving DecidableEq

/-- Identity freshness: all existing volume ids are below the counter. -/
def volFreshOK (c : VolCloud) : Prop := ∀ v ∈ c.volumes, v.id < c.nextId

/-- volumeMove (volume.go lines 393-521): describe the source volume,
snapshot it in the source region and wait, copy the snapshot to the target
region and wait, create a volume in the target zone from the copy carrying
over size, performance class and tags, wait for it, and optionally delete
both intermediate snapshots. -/
def volumeMove (c : VolCloud) (sourceRegion : String) (volID : Nat)
    (targetRegion targetAZFlag : String) (cleanup : Bool) :
    Except String (Nat × VolCloud) :=
  let targetAZ := if targetAZFlag = "" then targetRegion ++ "a" else targetAZFlag
  match c.volumes.find? (fun v => v.id == volID) with
  | none => .error "volume not found"
  | some srcVol =>
    let srcSnapID := c.nextId
    let c1 : VolCloud :=
      { c with
          snapshots := c.snapshots ++ [⟨srcSnapID, volID, sourceRegion, "completed"⟩],
          nextId := c.nextId + 1 }
    let dstSnapID := c1.nextId
    let c2 : VolCloud :=
      { c1 with
          snapshots := c1.snapshots ++ [⟨dstSnapID, volID, targetRegion, "completed"⟩],
          nextId := c1.nextId + 1 }
    let newVolID := c2.nextId
    let newVol : MVolume :=
      ⟨newVolID, srcVol.size, srcVol.volType, srcVol.iops, srcVol.throughput,
        targetAZ, targetRegion, "available", srcVol.tags⟩
    let c3 : VolCloud :=
      { c2 with volumes := c2.volumes ++ [newVol], nextId := c2.nextId + 1 }
    let c4 : VolCloud :=
      if cleanup then
        { c3 with snapshots :=
            c3.snapshots.filter (fun s => !(s.id == srcSnapID) && !(s.id == dstSnapID)) }
      else c3
    .ok (newVolID, c4)

/-- Observation on which the snapshot poll loop continues to the next poll:
a describe succeeding with no snapshot, or a snapshot in a state that is
neither the desired one nor the error state. -/
def snapContinues (desired : String) : SnapObs → Prop
  | .apiError _ => False
  | .missing => True
  | .snap st _ _ => st ≠ desired ∧ st ≠ "error"

/-- Observation on which the volume poll loop continues to the next poll:
a describe succeeding with no volume, or a volume in any state other than
the desired one (there is no failure-state check in this loop). -/
def volContinues (desired : String) : VolObs → Prop
  | .apiError _ => False
  | .missing => True
  | .vol st => st ≠ desired

/-- Outcome sequence for the C7 witness: the first attempt fails with the
transient spot-request signature, the second succeeds. -/
def c7Outcome (n : Nat) : Option GoStr :=
  if n = 0 then some (str "operation error: IncorrectSpotRequestState: not ready") else none

/-- Snapshot observations for the C8 witness: pending at the first poll,
completed from the second on. -/
def c8SnapObs (i : Nat) : SnapObs :=
  if i = 0 then .snap "pending" (some "50%") none else .snap "completed" none none

/-- Volume observations for the C8 witness: never reaches in-use. -/
def c8VolObs (_ : Nat) : VolObs := .vol "available"

/-- Key of one price observation. -/
def obsKey (o : SpotObs) : PriceKey := ⟨o.instanceType, o.az⟩

/-- Acceptance test of the zone filter in the FetchSpotPrices loop: the
record is processed unless a filter is given and the zone differs. -/
def acceptedBy (azFilter : String) (o : SpotObs) : Bool :=
  !(azFilter ≠ "" && o.az ≠ azFilter)

/-- Stream of observations processed by the FetchSpotPrices fold, in
processing order: the per-batch window queries concatenated. -/
def windowStream (history : List SpotObs) (typeNames : List String)
    (startTime : Nat) : List SpotObs :=
  (chunksOf 100 typeNames).flatMap (fun batch => spotHistoryQuery history batch startTime)

/-- Invariant of the latest-price map after processing the observations P:
keys are unique; every entry is an accepted processed observation carrying
its own key whose timestamp dominates every accepted processed observation
of that key; and every accepted processed observation has an entry at its
key. -/
def latestInv (azFilter : String) (P : List SpotObs)
    (m : List (PriceKey × SpotObs)) : Prop :=
  (m.map Prod.fst).Nodup
  ∧ (∀ kv ∈ m, kv.2 ∈ P ∧ obsKey kv.2 = kv.1 ∧ acceptedBy azFilter kv.2 = true
      ∧ ∀ o ∈ P, acceptedBy azFilter o = true → obsKey o = kv.1 →
        o.timestamp ≤ kv.2.timestamp)
  ∧ (∀ o ∈ P, acceptedBy azFilter o = true → ∃ w, (obsKey o, w) ∈ m)

/-- Instance-type input for the C5 witness. -/
def c5Types : List InstanceTypeInfo := [⟨"m5.large", 2, 8192, false, "Up to 10 Gigabit"⟩]

/-- Price history for the C5 witness: two observations for the pair
(m5.large, z1) and one observation in another zone. -/
def c5History : List SpotObs :=
  [⟨"m5.large", "z1", 100, 3⟩, ⟨"m5.large", "z1", 200, 2⟩, ⟨"m5.large", "z2", 150, 1⟩]

/-- Catalog for the C6 witness. -/
def c6Catalog : List CatalogType :=
  [⟨"m5.large", "x86_64", true, true, 2, 8192, false, "Up to 10 Gigabit"⟩]

/-- Price history for the C6 witness: capacity in the stuck instance's
zone z1 and cheaper capacity in another zone z2. -/
def c6History : List SpotObs :=
  [⟨"m5.large", "z1", 100, 2⟩, ⟨"m5.large", "z2", 100, 1⟩]

/-- Offer expected at the head of the C6 candidate list. -/
def c6Expected : SpotSearchResult :=
  ⟨"m5.large", 2, 8192, "z1", 2, false, "Up to 10 Gigabit"⟩

/-- Instance fixture for the C3 witness. -/
def c3Inst : CInstance :=
  ⟨"i-1", "m5.large", "running", "z1", none, "ami-1", "key1", "subnet-1", ["sg-1"], none,
    "/dev/xvda", [("/dev/xvda", "vol-0")], [("Name", "box")], []⟩

/-- Cloud fixture for the C3 witness. -/
def c3Cloud : Cloud := ⟨[c3Inst], [], [], 0⟩

/-- Launch-call recognizer for counting RunInstances calls in a trace. -/
def isLaunchCall : ApiCall → Bool
  | .runInstances _ _ => true
  | _ => false

/-- Original spot instance fixture for the C1, C2 and C10 witnesses: a
running spot instance with a root volume and one non-root volume vol-1. -/
def c1Inst : CInstance :=
  ⟨"i-orig", "m5.large", "running", "z1", some "sir-1", "ami-1", "key1", "subnet-1",
    ["sg-1"], none, "/dev/xvda", [("/dev/xvda", "vol-root0"), ("/dev/xvdf", "vol-1")],
    [("Name", "box")], []⟩

/-- Cloud fixture for the C1, C2 and C10 witnesses. -/
def c1Cloud : Cloud :=
  ⟨[c1Inst],
   [⟨"sir-1", some "0.30", "active"⟩],
   [⟨"vol-root0", "in-use", "z1", some ("i-orig", "/dev/xvda")⟩,
    ⟨"vol-1", "in-use", "z1", some ("i-orig", "/dev/xvdf")⟩],
   0⟩

/-- Fault specification simulating insufficient capacity at the launch. -/
def c1Faults : Faults := { noFaults with runInstances := true }

/-- Source volume fixture for the C4 witness. -/
def c4SrcVol : MVolume :=
  ⟨0, 100, "gp3", some 3000, some 125, "us-east-1a", "us-east-1", "in-use",
    [("Name", "data"), ("Env", "prod")]⟩

/-- Cloud fixture for the C4 witness. -/
def c4Cloud : VolCloud := ⟨[c4SrcVol], [], 1⟩

/-! ## String lemmas -/

/-- Boolean prefix test agrees with the prefix relation. -/
theorem isPrefixOf_iff {pat s : GoStr} : pat.isPrefixOf s = true ↔ pat <+: s :=
  List.isPrefixOf_iff_prefix

/-- containsSub decides the infix relation. -/
theorem containsSub_iff (s pat : GoStr) : containsSub s pat = true ↔ pat <:+: s := by
  induction s with
  | nil => simp [containsSub, List.infix_nil, List.isEmpty_iff]
  | cons c rest ih => simp [containsSub, ih, List.infix_cons_iff, isPrefixOf_iff]

/-- containsSub is false exactly when the pattern does not occur. -/
theorem containsSub_eq_false (s pat : GoStr) : containsSub s pat = false ↔ ¬ pat <:+: s := by
  rw [← containsSub_iff]
  cases containsSub s pat <;> simp

/-! ## C7: the start retry loop -/

/-- Division bound used for poll fuel: a is below (a / b + 1) * b. -/
theorem lt_div_add_one_mul (a b : Nat) (hb : 0 < b) : a < (a / b + 1) * b := by
  have h := Nat.div_add_mod a b
  have h2 := Nat.mod_lt a hb
  nlinarith

/-- Unfold equation of the retry loop at a successful attempt. -/
theorem startGo_succ_none {outcome : Nat → Option GoStr} {a fuel : Nat}
    (h : outcome a = none) :
    startGo outcome a (fuel + 1) = ⟨.ok (), [], a + 1⟩ := by
  simp [startGo, h]

/-- Unfold equation of the retry loop at a retryable failed attempt. -/
theorem startGo_succ_retry {outcome : Nat → Option GoStr} {a fuel : Nat} {e : GoStr}
    (h : outcome a = some e) (hr : spotStateRetryable e = true) (ha : a < 5) :
    startGo outcome a (fuel + 1) =
      ⟨(startGo outcome (a + 1) fuel).result, 10 :: (startGo outcome (a + 1) fuel).sleeps,
       (startGo outcome (a + 1) fuel).attempts⟩ := by
  simp [startGo, h, hr, ha]

/-- Unfold equation of the retry loop at a fatal failed attempt. -/
theorem startGo_succ_fatal {outcome : Nat → Option GoStr} {a fuel : Nat} {e : GoStr}
    (h : outcome a = some e) (hf : spotStateRetryable e = false ∨ 5 ≤ a) :
    startGo outcome a (fuel + 1) = ⟨.error e, [], a + 1⟩ := by
  have : (spotStateRetryable e && decide (a < 5)) = false := by
    rcases hf with hf | hf
    · simp [hf]
    · simp [Nat.not_lt.mpr hf]
  simp [startGo, h, this]

/-- Characterization of the retry loop from an arbitrary loop counter. -/
theorem startGo_spec (outcome : Nat → Option GoStr) :
    ∀ fuel a, a + fuel = 6 → 1 ≤ fuel →
    (a + 1 ≤ (startGo outcome a fuel).attempts ∧ (startGo outcome a fuel).attempts ≤ 6)
    ∧ (startGo outcome a fuel).sleeps =
        List.replicate ((startGo outcome a fuel).attempts - 1 - a) 10
    ∧ (∀ j, a ≤ j → j + 1 < (startGo outcome a fuel).attempts →
        ∃ e, outcome j = some e ∧ spotStateRetryable e = true)
    ∧ ((startGo outcome a fuel).result = .ok () ↔
        outcome ((startGo outcome a fuel).attempts - 1) = none)
    ∧ (∀ e, (startGo outcome a fuel).result = .error e →
        outcome ((startGo outcome a fuel).attempts - 1) = some e ∧
        (spotStateRetryable e = false ∨ (startGo outcome a fuel).attempts = 6)) := by
  intro fuel
  induction fuel with
  | zero => intro a _ hf; omega
  | succ fuel ih =>
    intro a ha _
    match hoc : outcome a with
    | none =>
      rw [startGo_succ_none hoc]
      refine ⟨⟨le_refl _, show a + 1 ≤ 6 by omega⟩, by simp, ?_, by simpa using hoc, by simp⟩
      intro j hj hj2
      simp only at hj2
      omega
    | some e =>
      by_cases hretry : spotStateRetryable e = true ∧ a < 5
      · rw [startGo_succ_retry hoc hretry.1 hretry.2]
        obtain ⟨⟨hlo, hhi⟩, hsl, hall, hok, herr⟩ := ih (a + 1) (by omega) (by omega)
        refine ⟨⟨by simpa using by omega, by simpa using hhi⟩, ?_, ?_, by simpa using hok,
          by simpa using herr⟩
        · show 10 :: (startGo outcome (a + 1) fuel).sleeps =
            List.replicate ((startGo outcome (a + 1) fuel).attempts - 1 - a) 10
          rw [hsl]
          have h2 : (startGo outcome (a + 1) fuel).attempts - 1 - a =
              ((startGo outcome (a + 1) fuel).attempts - 1 - (a + 1)) + 1 := by omega
          rw [h2, List.replicate_succ]
        · intro j hj hj2
          simp only at hj2
          rcases Nat.eq_or_lt_of_le hj with h | h
          · subst h
            exact ⟨e, hoc, hretry.1⟩
          · exact hall j h hj2
      · have hfatal : spotStateRetryable e = false ∨ 5 ≤ a := by
          rcases Decidable.not_and_iff_or_not.mp hretry with h | h
          · exact Or.inl (Bool.eq_false_iff.mpr h)
          · exact Or.inr (Nat.not_lt.mp h)
        rw [startGo_succ_fatal hoc hfatal]
        refine ⟨⟨le_refl _, show a + 1 ≤ 6 by omega⟩, by simp, ?_, ?_, ?_⟩
        · intro j hj hj2
          simp only at hj2
          omega
        · simp [hoc]
        · intro e2 he2
          simp only [Except.error.injEq] at he2
          subst he2
          refine ⟨by simpa using hoc, ?_⟩
          rcases hfatal with h | h
          · exact Or.inl h
          · right
            show a + 1 = 6
            omega

/-- C7: startInstances retries the StartInstances call, with a fixed
10-second sleep before each retry, only when the error text contains
IncorrectSpotRequestState; it makes at most 6 attempts, returns as soon as
an attempt succeeds, returns a non-matching error immediately, and when all
6 attempts fail with the matching signature it returns the last error. -/
theorem startInstances_retry_policy (outcome : Nat → Option GoStr) :
    (1 ≤ (startInstances outcome).attempts ∧ (startInstances outcome).attempts ≤ 6)
    ∧ (startInstances outcome).sleeps =
        List.replicate ((startInstances outcome).attempts - 1) 10
    ∧ (∀ j, j + 1 < (startInstances outcome).attempts →
        ∃ e, outcome j = some e ∧ spotStateRetryable e = true)
    ∧ ((startInstances outcome).result = .ok () ↔
        outcome ((startInstances outcome).attempts - 1) = none)
    ∧ (∀ e, (startInstances outcome).result = .error e →
        outcome ((startInstances outcome).attempts - 1) = some e ∧
        (spotStateRetryable e = false ∨ (startInstances outcome).attempts = 6)) := by
  obtain ⟨⟨h1, h2⟩, h3, h4, h5, h6⟩ := startGo_spec outcome 6 0 rfl (by omega)
  exact ⟨⟨h1, h2⟩, by simpa using h3, fun j hj => h4 j (Nat.zero_le j) hj,
    h5, h6⟩


/-- Witness for C7: on the concrete outcome sequence the loop makes two
attempts, sleeping 10 seconds once, and succeeds. -/
theorem startInstances_retry_policy_witness :
    (startInstances c7Outcome).attempts ≤ 6
    ∧ (startInstances c7Outcome).sleeps =
        List.replicate ((startInstances c7Outcome).attempts - 1) 10
    ∧ (startInstances c7Outcome).attempts = 2
    ∧ (startInstances c7Outcome).result = .ok () :=
  ⟨(startInstances_retry_policy c7Outcome).1.2,
   (startInstances_retry_policy c7Outcome).2.1,
   by decide, rfl⟩

/-! ## C8: the state pollers -/



/-- The snapshot poll loop returns success at the first poll observing the
desired state, provided every earlier poll continues. -/
theorem pollSnapGo_ok (obs : Nat → SnapObs) (desired : String) (interval timeout : Nat)
    (k : Nat) (p : Option String) (m : Option String)
    (hk : k * interval ≤ timeout) (hobs : obs k = .snap desired p m)
    (hbefore : ∀ j, j < k → snapContinues desired (obs j)) :
    ∀ fuel i, i ≤ k → k < i + fuel →
      pollSnapGo obs desired interval timeout i fuel = .ok := by
  intro fuel
  induction fuel with
  | zero => intro i h1 h2; omega
  | succ fuel ih =>
    intro i h1 h2
    have hile : i * interval ≤ timeout :=
      le_trans (Nat.mul_le_mul_right interval h1) hk
    rcases Nat.eq_or_lt_of_le h1 with h | h
    · subst h
      simp [pollSnapGo, Nat.not_lt.mpr hile, hobs]
    · have hc := hbefore i h
      simp only [pollSnapGo, if_neg (Nat.not_lt.mpr hile)]
      match hoi : obs i with
      | .apiError e => rw [hoi] at hc; exact absurd hc (by simp [snapContinues])
      | .missing => exact ih (i + 1) h (by omega)
      | .snap st pr ms =>
        rw [hoi] at hc
        simp only [snapContinues] at hc
        simp only [if_neg hc.1, if_neg hc.2]
        exact ih (i + 1) h (by omega)

/-- The snapshot poll loop times out when every poll inside the deadline
window continues. -/
theorem pollSnapGo_timeout (obs : Nat → SnapObs) (desired : String)
    (interval timeout : Nat)
    (hall : ∀ j, j * interval ≤ timeout → snapContinues desired (obs j)) :
    ∀ fuel i, pollSnapGo obs desired interval timeout i fuel = .timeoutErr := by
  intro fuel
  induction fuel with
  | zero => intro i; rfl
  | succ fuel ih =>
    intro i
    by_cases hd : timeout < i * interval
    · simp [pollSnapGo, hd]
    · have hc := hall i (Nat.not_lt.mp hd)
      simp only [pollSnapGo, if_neg hd]
      match hoi : obs i with
      | .apiError e => rw [hoi] at hc; exact absurd hc (by simp [snapContinues])
      | .missing => exact ih (i + 1)
      | .snap st pr ms =>
        rw [hoi] at hc
        simp only [snapContinues] at hc
        simp only [if_neg hc.1, if_neg hc.2]
        exact ih (i + 1)

/-- The snapshot poll loop fails with the surfaced provider message at the
first poll observing the error state, provided every earlier poll continues
and the desired state is not itself the error state. -/
theorem pollSnapGo_terminal (obs : Nat → SnapObs) (desired : String)
    (interval timeout : Nat) (k : Nat) (p : Option String) (msg : Option String)
    (hdes : desired ≠ "error") (hk : k * interval ≤ timeout)
    (hobs : obs k = .snap "error" p msg)
    (hbefore : ∀ j, j < k → snapContinues desired (obs j)) :
    ∀ fuel i, i ≤ k → k < i + fuel →
      pollSnapGo obs desired interval timeout i fuel = .snapFailed msg := by
  intro fuel
  induction fuel with
  | zero => intro i h1 h2; omega
  | succ fuel ih =>
    intro i h1 h2
    have hile : i * interval ≤ timeout :=
      le_trans (Nat.mul_le_mul_right interval h1) hk
    rcases Nat.eq_or_lt_of_le h1 with h | h
    · subst h
      have hne : ¬ ("error" = desired) := fun hh => hdes (Eq.symm hh)
      simp [pollSnapGo, Nat.not_lt.mpr hile, hobs, hne]
    · have hc := hbefore i h
      simp only [pollSnapGo, if_neg (Nat.not_lt.mpr hile)]
      match hoi : obs i with
      | .apiError e => rw [hoi] at hc; exact absurd hc (by simp [snapContinues])
      | .missing => exact ih (i + 1) h (by omega)
      | .snap st pr ms =>
        rw [hoi] at hc
        simp only [snapContinues] at hc
        simp only [if_neg hc.1, if_neg hc.2]
        exact ih (i + 1) h (by omega)

/-- The volume poll loop returns success at the first poll observing the
desired state, provided every earlier poll continues. -/
theorem pollVolGo_ok (obs : Nat → VolObs) (desired : String) (interval timeout : Nat)
    (k : Nat) (hk : k * interval ≤ timeout) (hobs : obs k = .vol desired)
    (hbefore : ∀ j, j < k → volContinues desired (obs j)) :
    ∀ fuel i, i ≤ k → k < i + fuel →
      pollVolGo obs desired interval timeout i fuel = .ok := by
  intro fuel
  induction fuel with
  | zero => intro i h1 h2; omega
  | succ fuel ih =>
    intro i h1 h2
    have hile : i * interval ≤ timeout :=
      le_trans (Nat.mul_le_mul_right interval h1) hk
    rcases Nat.eq_or_lt_of_le h1 with h | h
    · subst h
      simp [pollVolGo, Nat.not_lt.mpr hile, hobs]
    · have hc := hbefore i h
      simp only [pollVolGo, if_neg (Nat.not_lt.mpr hile)]
      match hoi : obs i with
      | .apiError e => rw [hoi] at hc; exact absurd hc (by simp [volContinues])
      | .missing => exact ih (i + 1) h (by omega)
      | .vol st =>
        rw [hoi] at hc
        simp only [volContinues] at hc
        simp only [if_neg hc]
        exact ih (i + 1) h (by omega)

/-- The volume poll loop times out when every poll inside the deadline
window continues; in particular a volume stuck in a failure state is not
detected and leads to a timeout. -/
theorem pollVolGo_timeout (obs : Nat → VolObs) (desired : String)
    (interval timeout : Nat)
    (hall : ∀ j, j * interval ≤ timeout → volContinues desired (obs j)) :
    ∀ fuel i, pollVolGo obs desired interval timeout i fuel = .timeoutErr := by
  intro fuel
  induction fuel with
  | zero => intro i; rfl
  | succ fuel ih =>
    intro i
    by_cases hd : timeout < i * interval
    · simp [pollVolGo, hd]
    · have hc := hall i (Nat.not_lt.mp hd)
      simp only [pollVolGo, if_neg hd]
      match hoi : obs i with
      | .apiError e => rw [hoi] at hc; exact absurd hc (by simp [volContinues])
      | .missing => exact ih (i + 1)
      | .vol st =>
        rw [hoi] at hc
        simp only [volContinues] at hc
        simp only [if_neg hc]
        exact ih (i + 1)

/-- Poll index bound: an in-window poll index is within the fuel. -/
theorem poll_index_lt_fuel {k interval timeout : Nat} (hint : 0 < interval)
    (hk : k * interval ≤ timeout) : k < 0 + (timeout / interval + 2) := by
  have h : k ≤ timeout / interval := (Nat.le_div_iff_mul_le hint).mpr hk
  omega

/-- C8 counterexample: a volume that reports the explicit failure state
"error" at every poll does not make the volume poller fail immediately with
a terminal error — PollVolumeState polls until the deadline elapses and
returns a timeout, refuting the claim for volume resources. -/
theorem pollVolumeState_error_state_counterexample :
    PollVolumeState (fun _ => .vol "error") "available" 5 10 = .timeoutErr
    ∧ (∀ m, PollVolumeState (fun _ => .vol "error") "available" 5 10 ≠ .snapFailed m)
    ∧ PollVolumeState (fun _ => .vol "error") "available" 5 10 ≠ .ok := by
  have h1 : PollVolumeState (fun _ => .vol "error") "available" 5 10 = .timeoutErr := by
    decide
  refine ⟨h1, fun m hm => ?_, fun hm => ?_⟩
  · rw [h1] at hm
    exact PollOutcome.noConfusion hm
  · rw [h1] at hm
    exact PollOutcome.noConfusion hm

/-- C8 (amended): the snapshot poller returns success once the target state
is observed within the deadline, fails with a timeout when the deadline
elapses with every poll inconclusive, and fails immediately with a terminal
error surfacing the provider message when the snapshot reports the error
state; the volume poller returns success once the target state is observed
and otherwise times out — it has no failure-state detection, so a volume
stuck in an explicit failure state produces a timeout, not an immediate
terminal error. -/
theorem statePoller_behavior (obs : Nat → SnapObs) (vobs : Nat → VolObs)
    (desired : String) (interval timeout : Nat) :
    (∀ k p m, 0 < interval → k * interval ≤ timeout → obs k = .snap desired p m →
      (∀ j, j < k → snapContinues desired (obs j)) →
      pollSnapshotState obs desired interval timeout = .ok)
    ∧ ((∀ j, j * interval ≤ timeout → snapContinues desired (obs j)) →
      pollSnapshotState obs desired interval timeout = .timeoutErr)
    ∧ (∀ k p msg, 0 < interval → desired ≠ "error" → k * interval ≤ timeout →
      obs k = .snap "error" p msg →
      (∀ j, j < k → snapContinues desired (obs j)) →
      pollSnapshotState obs desired interval timeout = .snapFailed msg)
    ∧ (∀ k, 0 < interval → k * interval ≤ timeout → vobs k = .vol desired →
      (∀ j, j < k → volContinues desired (vobs j)) →
      PollVolumeState vobs desired interval timeout = .ok)
    ∧ ((∀ j, j * interval ≤ timeout → volContinues desired (vobs j)) →
      PollVolumeState vobs desired interval timeout = .timeoutErr) := by
  refine ⟨?_, ?_, ?_, ?_, ?_⟩
  · intro k p m hint hk hobs hbefore
    exact pollSnapGo_ok obs desired interval timeout k p m hk hobs hbefore _ 0
      (Nat.zero_le k) (poll_index_lt_fuel hint hk)
  · intro hall
    exact pollSnapGo_timeout obs desired interval timeout hall _ 0
  · intro k p msg hint hdes hk hobs hbefore
    exact pollSnapGo_terminal obs desired interval timeout k p msg hdes hk hobs hbefore _ 0
      (Nat.zero_le k) (poll_index_lt_fuel hint hk)
  · intro k hint hk hobs hbefore
    exact pollVolGo_ok vobs desired interval timeout k hk hobs hbefore _ 0
      (Nat.zero_le k) (poll_index_lt_fuel hint hk)
  · intro hall
    exact pollVolGo_timeout vobs desired interval timeout hall _ 0



/-- Witness for C8: the snapshot poller succeeds on a snapshot that
completes at the second poll, and the volume poller times out on a volume
that never reaches the desired state. -/
theorem statePoller_behavior_witness :
    pollSnapshotState c8SnapObs "completed" 15 1800 = .ok
    ∧ PollVolumeState c8VolObs "in-use" 5 120 = .timeoutErr := by
  constructor
  · exact (statePoller_behavior c8SnapObs c8VolObs "completed" 15 1800).1 1 none none
      (by decide) (by decide) rfl
      (fun j hj => by
        interval_cases j
        simp [c8SnapObs, snapContinues])
  · exact (statePoller_behavior c8SnapObs c8VolObs "in-use" 5 120).2.2.2.2
      (fun j _ => by simp [c8VolObs, volContinues])

/-! ## C5 and C6: capacity discovery lemmas -/

/-- Flattening the chunks of a list recovers the list. -/
theorem chunksGo_flatten {α : Type} (n : Nat) (hn : 0 < n) :
    ∀ fuel (l : List α), l.length ≤ fuel → (chunksGo n fuel l).flatten = l := by
  intro fuel
  induction fuel with
  | zero =>
    intro l hl
    match l with
    | [] => rfl
    | x :: xs => simp at hl
  | succ fuel ih =>
    intro l hl
    match l with
    | [] => rfl
    | x :: xs =>
      show (List.take n (x :: xs) :: chunksGo n fuel (List.drop n (x :: xs))).flatten = x :: xs
      rw [List.flatten_cons, ih (List.drop n (x :: xs))
          (by rw [List.length_drop]; simp only [List.length_cons] at hl ⊢; omega),
        List.take_append_drop]

/-- Every chunk is made of elements of the original list. -/
theorem chunksGo_subset {α : Type} (n : Nat) :
    ∀ fuel (l : List α) b, b ∈ chunksGo n fuel l → ∀ x ∈ b, x ∈ l := by
  intro fuel
  induction fuel with
  | zero =>
    intro l b hb
    simp [chunksGo] at hb
  | succ fuel ih =>
    intro l b hb
    match l with
    | [] => simp [chunksGo] at hb
    | y :: ys =>
      rcases List.mem_cons.mp hb with h | h
      · subst h
        exact fun x hx => List.take_subset n (y :: ys) hx
      · exact fun x hx => List.drop_subset n (y :: ys) (ih (List.drop n (y :: ys)) b h x hx)

/-- Membership in the processed observation stream. -/
theorem mem_windowStream {history : List SpotObs} {typeNames : List String}
    {startTime : Nat} {o : SpotObs} :
    o ∈ windowStream history typeNames startTime ↔
      o ∈ history ∧ o.instanceType ∈ typeNames ∧ startTime ≤ o.timestamp := by
  constructor
  · intro h
    rcases List.mem_flatMap.mp h with ⟨batch, hb, ho⟩
    rcases List.mem_filter.mp ho with ⟨h1, h2⟩
    simp only [Bool.and_eq_true, decide_eq_true_eq, List.elem_iff] at h2
    exact ⟨h1, chunksGo_subset 100 typeNames.length typeNames batch hb o.instanceType h2.1,
      h2.2⟩
  · rintro ⟨h1, h2, h3⟩
    have hmem : o.instanceType ∈ (chunksOf 100 typeNames).flatten := by
      rw [chunksOf, chunksGo_flatten 100 (by omega) typeNames.length typeNames (le_refl _)]
      exact h2
    rcases List.mem_flatten.mp hmem with ⟨batch, hb, hib⟩
    refine List.mem_flatMap.mpr ⟨batch, hb, List.mem_filter.mpr ⟨h1, ?_⟩⟩
    simp only [Bool.and_eq_true, decide_eq_true_eq, List.elem_iff]
    exact ⟨hib, h3⟩

/-- Every entry of the updated map is an old entry or the new binding. -/
theorem insertLatest_mem (m : List (PriceKey × SpotObs)) (k : PriceKey) (o : SpotObs) :
    ∀ kv ∈ insertLatest m k o, kv ∈ m ∨ kv = (k, o) := by
  induction m with
  | nil =>
    intro kv h
    simp only [insertLatest, List.mem_singleton] at h
    exact Or.inr h
  | cons hd rest ih =>
    obtain ⟨k', o'⟩ := hd
    intro kv h
    by_cases hk : k' = k
    · subst hk
      by_cases ht : o'.timestamp < o.timestamp
      · simp only [insertLatest, if_pos rfl, if_pos ht] at h
        rcases List.mem_cons.mp h with h | h
        · exact Or.inr h
        · exact Or.inl (List.mem_cons_of_mem _ h)
      · simp only [insertLatest, if_pos rfl, if_neg ht] at h
        exact Or.inl h
    · simp only [insertLatest, if_neg hk] at h
      rcases List.mem_cons.mp h with h | h
      · exact Or.inl (by rw [h]; exact List.mem_cons_self _ _)
      · rcases ih kv h with h2 | h2
        · exact Or.inl (List.mem_cons_of_mem _ h2)
        · exact Or.inr h2

/-- Entries at other keys are untouched by the update. -/
theorem insertLatest_frame (m : List (PriceKey × SpotObs)) (k : PriceKey) (o : SpotObs) :
    ∀ kv ∈ m, kv.1 ≠ k → kv ∈ insertLatest m k o := by
  induction m with
  | nil => intro kv h; cases h
  | cons hd rest ih =>
    obtain ⟨k', o'⟩ := hd
    intro kv h hne
    by_cases hk : k' = k
    · subst hk
      rcases List.mem_cons.mp h with h | h
      · exact absurd (congrArg Prod.fst h) (by simpa using hne)
      · by_cases ht : o'.timestamp < o.timestamp
        · simp only [insertLatest, if_pos rfl, if_pos ht]
          exact List.mem_cons_of_mem _ h
        · simp only [insertLatest, if_pos rfl, if_neg ht]
          exact List.mem_cons_of_mem _ h
    · simp only [insertLatest, if_neg hk]
      rcases List.mem_cons.mp h with h | h
      · rw [h]; exact List.mem_cons_self _ _
      · exact List.mem_cons_of_mem _ (ih kv h hne)

/-- The updated map binds the key, to the new observation or to an old
binding whose timestamp is at least the new observation's. -/
theorem insertLatest_key_exists (m : List (PriceKey × SpotObs)) (k : PriceKey) (o : SpotObs) :
    ∃ w, (k, w) ∈ insertLatest m k o ∧
      (w = o ∨ ((k, w) ∈ m ∧ o.timestamp ≤ w.timestamp)) := by
  induction m with
  | nil => exact ⟨o, by simp [insertLatest], Or.inl rfl⟩
  | cons hd rest ih =>
    obtain ⟨k', o'⟩ := hd
    by_cases hk : k' = k
    · subst hk
      by_cases ht : o'.timestamp < o.timestamp
      · exact ⟨o, by simp [insertLatest, ht], Or.inl rfl⟩
      · refine ⟨o', by simp [insertLatest, ht], Or.inr ⟨List.mem_cons_self _ _, ?_⟩⟩
        omega
    · obtain ⟨w, hw1, hw2⟩ := ih
      refine ⟨w, by simp only [insertLatest, if_neg hk]; exact List.mem_cons_of_mem _ hw1, ?_⟩
      rcases hw2 with h | h
      · exact Or.inl h
      · exact Or.inr ⟨List.mem_cons_of_mem _ h.1, h.2⟩

/-- Unfold equation of insertLatest: matching head with an older timestamp
is replaced. -/
theorem insertLatest_cons_replace {k' : PriceKey} {o' : SpotObs}
    {rest : List (PriceKey × SpotObs)} {k : PriceKey} {o : SpotObs}
    (hk : k' = k) (ht : o'.timestamp < o.timestamp) :
    insertLatest ((k', o') :: rest) k o = (k, o) :: rest := by
  simp [insertLatest, hk, ht]

/-- Unfold equation of insertLatest: matching head with a timestamp at
least the new one is kept. -/
theorem insertLatest_cons_keep {k' : PriceKey} {o' : SpotObs}
    {rest : List (PriceKey × SpotObs)} {k : PriceKey} {o : SpotObs}
    (hk : k' = k) (ht : ¬ o'.timestamp < o.timestamp) :
    insertLatest ((k', o') :: rest) k o = (k', o') :: rest := by
  simp [insertLatest, hk, ht]

/-- Unfold equation of insertLatest: a non-matching head is skipped. -/
theorem insertLatest_cons_skip {k' : PriceKey} {o' : SpotObs}
    {rest : List (PriceKey × SpotObs)} {k : PriceKey} {o : SpotObs}
    (hk : ¬ k' = k) :
    insertLatest ((k', o') :: rest) k o = (k', o') :: insertLatest rest k o := by
  simp [insertLatest, hk]

/-- With unique keys, every binding of the key in the updated map is either
the new observation (which then strictly dominates every old binding) or an
old binding dominating the new observation. -/
theorem insertLatest_key_spec (m : List (PriceKey × SpotObs)) (k : PriceKey) (o : SpotObs)
    (hnd : (m.map Prod.fst).Nodup) :
    ∀ w, (k, w) ∈ insertLatest m k o →
      (w = o ∧ ∀ w0, (k, w0) ∈ m → w0.timestamp < o.timestamp)
      ∨ ((k, w) ∈ m ∧ o.timestamp ≤ w.timestamp) := by
  induction m with
  | nil =>
    intro w h
    simp only [insertLatest, List.mem_singleton, Prod.mk.injEq, true_and] at h
    refine Or.inl ⟨h, ?_⟩
    intro w0 h0
    cases h0
  | cons hd rest ih =>
    obtain ⟨k', o'⟩ := hd
    simp only [List.map_cons, List.nodup_cons] at hnd
    intro w h
    by_cases hk : k' = k
    · have hknotin : ∀ w0, ¬ (k, w0) ∈ rest := by
        intro w0 h0
        exact hnd.1 (by rw [hk]; exact List.mem_map.mpr ⟨(k, w0), h0, rfl⟩)
      by_cases ht : o'.timestamp < o.timestamp
      · rw [insertLatest_cons_replace hk ht] at h
        rcases List.mem_cons.mp h with h | h
        · left
          refine ⟨((Prod.mk.injEq _ _ _ _).mp h).2, ?_⟩
          intro w0 h0
          rcases List.mem_cons.mp h0 with h0 | h0
          · have heq : o' = w0 := ((Prod.mk.injEq _ _ _ _).mp h0.symm).2
            rw [← heq]
            exact ht
          · exact absurd h0 (hknotin w0)
        · exact absurd h (hknotin w)
      · rw [insertLatest_cons_keep hk ht] at h
        rcases List.mem_cons.mp h with h | h
        · right
          have heq : o' = w := ((Prod.mk.injEq _ _ _ _).mp h.symm).2
          constructor
          · rw [h] at *
            exact List.mem_cons_self _ _
          · rw [← heq]
            omega
        · exact absurd h (hknotin w)
    · rw [insertLatest_cons_skip hk] at h
      rcases List.mem_cons.mp h with h | h
      · exact absurd ((Prod.mk.injEq _ _ _ _).mp h).1.symm hk
      · rcases ih hnd.2 w h with h2 | h2
        · left
          refine ⟨h2.1, ?_⟩
          intro w0 h0
          rcases List.mem_cons.mp h0 with h0 | h0
          · exact absurd ((Prod.mk.injEq _ _ _ _).mp h0).1.symm hk
          · exact h2.2 w0 h0
        · exact Or.inr ⟨List.mem_cons_of_mem _ h2.1, h2.2⟩

/-- Key uniqueness is preserved by the update. -/
theorem insertLatest_nodupKeys (m : List (PriceKey × SpotObs)) (k : PriceKey) (o : SpotObs)
    (hnd : (m.map Prod.fst).Nodup) :
    ((insertLatest m k o).map Prod.fst).Nodup := by
  induction m with
  | nil => simp [insertLatest]
  | cons hd rest ih =>
    obtain ⟨k', o'⟩ := hd
    simp only [List.map_cons, List.nodup_cons] at hnd
    by_cases hk : k' = k
    · by_cases ht : o'.timestamp < o.timestamp
      · rw [insertLatest_cons_replace hk ht]
        simp only [List.map_cons, List.nodup_cons]
        refine ⟨?_, hnd.2⟩
        rw [← hk]
        exact hnd.1
      · rw [insertLatest_cons_keep hk ht]
        simp only [List.map_cons, List.nodup_cons]
        exact ⟨hnd.1, hnd.2⟩
    · rw [insertLatest_cons_skip hk]
      simp only [List.map_cons, List.nodup_cons]
      refine ⟨?_, ih hnd.2⟩
      intro hmem
      rcases List.mem_map.mp hmem with ⟨kv, hkv, hfst⟩
      rcases insertLatest_mem rest k o kv hkv with h | h
      · exact hnd.1 (List.mem_map.mpr ⟨kv, h, hfst⟩)
      · rw [h] at hfst
        exact hk hfst.symm

/-- processObs skips a record rejected by the zone filter. -/
theorem processObs_skip {az : String} {o : SpotObs} (m : List (PriceKey × SpotObs))
    (h : acceptedBy az o = false) : processObs az m o = m := by
  have h2 : (az ≠ "" && o.az ≠ az) = true := by
    simpa [acceptedBy] using h
  unfold processObs
  rw [if_pos h2]

/-- Acceptance means no filter or a matching zone. -/
theorem acceptedBy_iff {az : String} {o : SpotObs} :
    acceptedBy az o = true ↔ (az = "" ∨ o.az = az) := by
  constructor
  · intro h
    simpa [acceptedBy] using h
  · intro h
    simp only [acceptedBy]
    rcases h with h | h <;> simp [h]

/-- processObs folds an accepted record into the latest-price map. -/
theorem processObs_accept {az : String} {o : SpotObs} (m : List (PriceKey × SpotObs))
    (h : acceptedBy az o = true) : processObs az m o = insertLatest m (obsKey o) o := by
  have h2 : az = "" ∨ o.az = az := acceptedBy_iff.mp h
  unfold processObs
  rw [if_neg (by rcases h2 with h2 | h2 <;> simp [h2])]
  rfl

/-- One step of the FetchSpotPrices fold preserves the map invariant. -/
theorem latestInv_step (az : String) (P : List SpotObs) (m : List (PriceKey × SpotObs))
    (o : SpotObs) (hinv : latestInv az P m) :
    latestInv az (P ++ [o]) (processObs az m o) := by
  obtain ⟨hnd, hent, hcomp⟩ := hinv
  by_cases hacc : acceptedBy az o = true
  · rw [processObs_accept m hacc]
    refine ⟨insertLatest_nodupKeys m (obsKey o) o hnd, ?_, ?_⟩
    · rintro ⟨kk, w⟩ hkv
      by_cases hkk : kk = obsKey o
      · subst hkk
        rcases insertLatest_key_spec m (obsKey o) o hnd w hkv with ⟨heq, hdom⟩ | ⟨hold, hle⟩
        · subst w
          refine ⟨List.mem_append_right P (List.mem_singleton.mpr rfl), rfl, hacc, ?_⟩
          intro o2 ho2 hacc2 hkey2
          rcases List.mem_append.mp ho2 with h2 | h2
          · obtain ⟨w0, hw0⟩ := hcomp o2 h2 hacc2
            rw [hkey2] at hw0
            have hmax := (hent (obsKey o, w0) hw0).2.2.2 o2 h2 hacc2 hkey2
            have hlt := hdom w0 hw0
            dsimp only at hmax ⊢
            omega
          · rw [List.mem_singleton.mp h2]
        · obtain ⟨hP, hkey, haccw, hmax⟩ := hent (obsKey o, w) hold
          refine ⟨List.mem_append_left _ hP, hkey, haccw, ?_⟩
          intro o2 ho2 hacc2 hkey2
          rcases List.mem_append.mp ho2 with h2 | h2
          · exact hmax o2 h2 hacc2 hkey2
          · rw [List.mem_singleton.mp h2]
            exact hle
      · have hold : (kk, w) ∈ m := by
          rcases insertLatest_mem m (obsKey o) o (kk, w) hkv with h | h
          · exact h
          · exact absurd ((Prod.mk.injEq _ _ _ _).mp h).1 hkk
        obtain ⟨hP, hkey, haccw, hmax⟩ := hent (kk, w) hold
        refine ⟨List.mem_append_left _ hP, hkey, haccw, ?_⟩
        intro o2 ho2 hacc2 hkey2
        rcases List.mem_append.mp ho2 with h2 | h2
        · exact hmax o2 h2 hacc2 hkey2
        · rw [List.mem_singleton.mp h2] at hkey2
          exact absurd hkey2 (fun hh => hkk hh.symm)
    · intro o2 ho2 hacc2
      rcases List.mem_append.mp ho2 with h2 | h2
      · obtain ⟨w, hw⟩ := hcomp o2 h2 hacc2
        by_cases hkk : obsKey o2 = obsKey o
        · obtain ⟨w2, hw2, _⟩ := insertLatest_key_exists m (obsKey o) o
          exact ⟨w2, by rw [hkk]; exact hw2⟩
        · exact ⟨w, insertLatest_frame m (obsKey o) o (obsKey o2, w) hw hkk⟩
      · rw [List.mem_singleton.mp h2]
        obtain ⟨w2, hw2, _⟩ := insertLatest_key_exists m (obsKey o) o
        exact ⟨w2, hw2⟩
  · have hacc2 := Bool.not_eq_true _ |>.mp hacc
    rw [processObs_skip m hacc2]
    refine ⟨hnd, ?_, ?_⟩
    · intro kv hkv
      obtain ⟨hP, hkey, haccw, hmax⟩ := hent kv hkv
      refine ⟨List.mem_append_left _ hP, hkey, haccw, ?_⟩
      intro o2 ho2 hao2 hko2
      rcases List.mem_append.mp ho2 with h2 | h2
      · exact hmax o2 h2 hao2 hko2
      · rw [List.mem_singleton.mp h2] at hao2
        rw [hao2] at hacc2
        cases hacc2
    · intro o2 ho2 hao2
      rcases List.mem_append.mp ho2 with h2 | h2
      · exact hcomp o2 h2 hao2
      · rw [List.mem_singleton.mp h2] at hao2
        rw [hao2] at hacc2
        cases hacc2

/-- The FetchSpotPrices fold preserves the map invariant over a stream. -/
theorem latestInv_foldl (az : String) :
    ∀ (L P : List SpotObs) (m : List (PriceKey × SpotObs)), latestInv az P m →
      latestInv az (P ++ L) (L.foldl (processObs az) m) := by
  intro L
  induction L with
  | nil => intro P m h; simpa using h
  | cons o L ih =>
    intro P m h
    have h2 := ih (P ++ [o]) (processObs az m o) (latestInv_step az P m o h)
    rw [List.append_assoc] at h2
    simpa using h2

/-- The nested per-batch fold of FetchSpotPrices equals the fold over the
concatenated stream. -/
theorem nested_foldl_eq (az : String) (history : List SpotObs) (startTime : Nat) :
    ∀ (batches : List (List String)) (m : List (PriceKey × SpotObs)),
      batches.foldl
        (fun m batch => (spotHistoryQuery history batch startTime).foldl (processObs az) m) m
      = (batches.flatMap (fun b => spotHistoryQuery history b startTime)).foldl
          (processObs az) m := by
  intro batches
  induction batches with
  | nil => intro m; rfl
  | cons b rest ih =>
    intro m
    rw [List.foldl_cons, List.flatMap_cons, List.foldl_append]
    exact ih _

/-- The latest-price map computed by FetchSpotPrices satisfies the map
invariant over the full processed stream. -/
theorem fetchSpotPrices_inv (instanceTypes : List InstanceTypeInfo) (az : String)
    (history : List SpotObs) (now : Nat) :
    latestInv az (windowStream history (instanceTypes.map (fun it => it.name)) (now - 3600))
      ((chunksOf 100 (instanceTypes.map (fun it => it.name))).foldl
        (fun m batch => (spotHistoryQuery history batch (now - 3600)).foldl (processObs az) m)
        []) := by
  rw [nested_foldl_eq]
  have hbase : latestInv az [] [] := by
    unfold latestInv
    refine ⟨List.nodup_nil, ?_, ?_⟩
    · intro kv h
      cases h
    · intro o h
      cases h
  have h := latestInv_foldl az
    (windowStream history (instanceTypes.map (fun it => it.name)) (now - 3600)) [] [] hbase
  simpa [windowStream] using h

/-- With unique keys, entries sharing a key are equal. -/
theorem nodupKeys_unique (m : List (PriceKey × SpotObs))
    (h : (m.map Prod.fst).Nodup) :
    ∀ kv1 ∈ m, ∀ kv2 ∈ m, kv1.1 = kv2.1 → kv1 = kv2 := by
  induction m with
  | nil => intro kv1 h1; cases h1
  | cons hd rest ih =>
    simp only [List.map_cons, List.nodup_cons] at h
    intro kv1 h1 kv2 h2 hk
    rcases List.mem_cons.mp h1 with h1 | h1 <;> rcases List.mem_cons.mp h2 with h2 | h2
    · rw [h1, h2]
    · exfalso
      apply h.1
      rw [h1] at hk
      exact List.mem_map.mpr ⟨kv2, h2, hk.symm⟩
    · exfalso
      apply h.1
      rw [h2] at hk
      exact List.mem_map.mpr ⟨kv1, h1, hk⟩
    · exact ih h.2 kv1 h1 kv2 h2 hk

/-- Unfolding of FetchSpotPrices into the latest-price fold and the result
assembly. -/
theorem fetchSpotPrices_eq (instanceTypes : List InstanceTypeInfo) (az : String)
    (history : List SpotObs) (now : Nat) :
    FetchSpotPrices instanceTypes az history now =
      ((chunksOf 100 (instanceTypes.map (fun it => it.name))).foldl
        (fun m batch =>
          (spotHistoryQuery history batch (now - 3600)).foldl (processObs az) m) []).map
      (fun kv =>
        ⟨kv.1.itype, (infoLookup instanceTypes kv.1.itype).vcpus,
          (infoLookup instanceTypes kv.1.itype).memoryMiB, kv.1.az, kv.2.price,
          (infoLookup instanceTypes kv.1.itype).hasGPU,
          (infoLookup instanceTypes kv.1.itype).networkPerformance⟩) := rfl

/-- At most one offer per (instance type, zone) pair. -/
theorem fetchSpotPrices_key_unique (instanceTypes : List InstanceTypeInfo) (az : String)
    (history : List SpotObs) (now : Nat) :
    ∀ r1 ∈ FetchSpotPrices instanceTypes az history now,
      ∀ r2 ∈ FetchSpotPrices instanceTypes az history now,
        r1.instanceType = r2.instanceType → r1.az = r2.az → r1 = r2 := by
  intro r1 h1 r2 h2 hty haz
  rw [fetchSpotPrices_eq] at h1 h2
  rcases List.mem_map.mp h1 with ⟨kv1, hkv1, hr1⟩
  rcases List.mem_map.mp h2 with ⟨kv2, hkv2, hr2⟩
  have hnd := (fetchSpotPrices_inv instanceTypes az history now).1
  have hkey : kv1.1 = kv2.1 := by
    rw [← hr1, ← hr2] at hty haz
    obtain ⟨k1, v1⟩ := kv1
    obtain ⟨k2, v2⟩ := kv2
    obtain ⟨t1, z1⟩ := k1
    obtain ⟨t2, z2⟩ := k2
    simp only at hty haz
    rw [hty, haz]
  have := nodupKeys_unique _ hnd kv1 hkv1 kv2 hkv2 hkey
  rw [← hr1, ← hr2, this]

/-- Every offer is the latest in-window observation for its pair. -/
theorem fetchSpotPrices_latest (instanceTypes : List InstanceTypeInfo) (az : String)
    (history : List SpotObs) (now : Nat) :
    ∀ r ∈ FetchSpotPrices instanceTypes az history now,
      ∃ o ∈ history, o.instanceType = r.instanceType ∧ o.az = r.az ∧ o.price = r.price ∧
        now - 3600 ≤ o.timestamp ∧
        ∀ o2 ∈ history, o2.instanceType = r.instanceType → o2.az = r.az →
          now - 3600 ≤ o2.timestamp → o2.timestamp ≤ o.timestamp := by
  intro r hr
  rw [fetchSpotPrices_eq] at hr
  rcases List.mem_map.mp hr with ⟨kv, hkv, hrr⟩
  obtain ⟨hnd, hent, hcomp⟩ := fetchSpotPrices_inv instanceTypes az history now
  obtain ⟨hws, hkey, hacc, hmax⟩ := hent kv hkv
  obtain ⟨hhist, htype, hwin⟩ := mem_windowStream.mp hws
  have hty : kv.2.instanceType = r.instanceType := by
    rw [← hrr]
    have : (obsKey kv.2).itype = kv.1.itype := by rw [hkey]
    simpa [obsKey] using this
  have hz : kv.2.az = r.az := by
    rw [← hrr]
    have : (obsKey kv.2).az = kv.1.az := by rw [hkey]
    simpa [obsKey] using this
  refine ⟨kv.2, hhist, hty, hz, by rw [← hrr], hwin, ?_⟩
  intro o2 ho2 hty2 hz2 hwin2
  have hty2k : o2.instanceType = kv.2.instanceType := by rw [hty2, hty]
  have hz2k : o2.az = kv.2.az := by rw [hz2, hz]
  have ho2ws : o2 ∈ windowStream history (instanceTypes.map (fun it => it.name)) (now - 3600) := by
    refine mem_windowStream.mpr ⟨ho2, ?_, hwin2⟩
    rw [hty2k]
    exact htype
  have hacc2 : acceptedBy az o2 = true := by
    rcases acceptedBy_iff.mp hacc with h | h
    · exact acceptedBy_iff.mpr (Or.inl h)
    · exact acceptedBy_iff.mpr (Or.inr (by rw [hz2k, h]))
  have hkey2 : obsKey o2 = kv.1 := by
    rw [← hkey]
    simp only [obsKey, PriceKey.mk.injEq]
    exact ⟨hty2k, hz2k⟩
  exact hmax o2 ho2ws hacc2 hkey2

/-- With a zone filter every offer's zone equals the filter. -/
theorem fetchSpotPrices_az (instanceTypes : List InstanceTypeInfo) (az : String)
    (history : List SpotObs) (now : Nat) (haz : az ≠ "") :
    ∀ r ∈ FetchSpotPrices instanceTypes az history now, r.az = az := by
  intro r hr
  rw [fetchSpotPrices_eq] at hr
  rcases List.mem_map.mp hr with ⟨kv, hkv, hrr⟩
  obtain ⟨hnd, hent, hcomp⟩ := fetchSpotPrices_inv instanceTypes az history now
  obtain ⟨hws, hkey, hacc, hmax⟩ := hent kv hkv
  rcases acceptedBy_iff.mp hacc with h | h
  · exact absurd h haz
  · rw [← hrr]
    show kv.1.az = az
    rw [← hkey]
    simpa [obsKey] using h

/-- Sorting with a comparator permutes the list. -/
theorem sortByLe_perm {α : Type} (le : α → α → Bool) (l : List α) :
    (sortByLe le l).Perm l :=
  List.perm_insertionSort _ l

/-- Sorting with a total transitive comparator sorts the list. -/
theorem sortByLe_sorted {α : Type} (le : α → α → Bool)
    (htot : ∀ a b, le a b = true ∨ le b a = true)
    (htrans : ∀ a b c, le a b = true → le b c = true → le a c = true) (l : List α) :
    List.Pairwise (fun a b => le a b = true) (sortByLe le l) := by
  haveI : IsTotal α (fun a b => le a b = true) := ⟨htot⟩
  haveI : IsTrans α (fun a b => le a b = true) := ⟨fun a b c => htrans a b c⟩
  exact List.sorted_insertionSort _ l

/-- The default sort key of runSearch sorts by price over the
ceiling-filtered offers. -/
theorem runSearchFilterSort_price_eq (results : List SpotSearchResult) (maxPrice : ℚ) :
    runSearchFilterSort results maxPrice "price" =
      sortByLe priceLE
        (if 0 < maxPrice then results.filter (fun r => decide (r.price ≤ maxPrice))
         else results) := rfl

/-- C5: FetchSpotPrices keeps at most one offer per (instance type, zone)
pair, namely the in-window observation with the latest timestamp for that
pair; a given zone filter restricts every offer to that zone; and the
search pipeline drops offers above a given price ceiling and returns the
rest sorted ascending by price (the default sort key). -/
theorem fetchSpotPrices_and_search_pipeline (instanceTypes : List InstanceTypeInfo)
    (azFilter : String) (history : List SpotObs) (now : Nat) (maxPrice : ℚ) :
    (∀ r1 ∈ FetchSpotPrices instanceTypes azFilter history now,
      ∀ r2 ∈ FetchSpotPrices instanceTypes azFilter history now,
        r1.instanceType = r2.instanceType → r1.az = r2.az → r1 = r2)
    ∧ (∀ r ∈ FetchSpotPrices instanceTypes azFilter history now,
        ∃ o ∈ history, o.instanceType = r.instanceType ∧ o.az = r.az ∧ o.price = r.price ∧
          now - 3600 ≤ o.timestamp ∧
          ∀ o2 ∈ history, o2.instanceType = r.instanceType → o2.az = r.az →
            now - 3600 ≤ o2.timestamp → o2.timestamp ≤ o.timestamp)
    ∧ (azFilter ≠ "" →
        ∀ r ∈ FetchSpotPrices instanceTypes azFilter history now, r.az = azFilter)
    ∧ (0 < maxPrice →
        (runSearchFilterSort (FetchSpotPrices instanceTypes azFilter history now)
            maxPrice "price").Perm
          ((FetchSpotPrices instanceTypes azFilter history now).filter
            (fun r => decide (r.price ≤ maxPrice))))
    ∧ List.Pairwise (fun a b : SpotSearchResult => a.price ≤ b.price)
        (runSearchFilterSort (FetchSpotPrices instanceTypes azFilter history now)
          maxPrice "price") := by
  refine ⟨fetchSpotPrices_key_unique instanceTypes azFilter history now,
    fetchSpotPrices_latest instanceTypes azFilter history now,
    fetchSpotPrices_az instanceTypes azFilter history now, ?_, ?_⟩
  · intro hmp
    rw [runSearchFilterSort_price_eq, if_pos hmp]
    exact sortByLe_perm _ _
  · rw [runSearchFilterSort_price_eq]
    have hs := sortByLe_sorted priceLE
      (fun a b => by simp [priceLE]; exact le_total a.price b.price)
      (fun a b c hab hbc => by
        simp only [priceLE, decide_eq_true_eq] at hab hbc ⊢
        exact le_trans hab hbc)
      (if 0 < maxPrice
       then (FetchSpotPrices instanceTypes azFilter history now).filter
         (fun r => decide (r.price ≤ maxPrice))
       else FetchSpotPrices instanceTypes azFilter history now)
    exact hs.imp (fun h => by simpa [priceLE] using h)

/-- C5 witness: on a concrete catalog and history, FetchSpotPrices keeps
exactly the newest z1 observation when filtering to z1, and the pipeline
sorts the ceiling-filtered offers by price. -/
theorem fetchSpotPrices_and_search_pipeline_witness :
    FetchSpotPrices c5Types "z1" c5History 3600 =
      [⟨"m5.large", 2, 8192, "z1", 2, false, "Up to 10 Gigabit"⟩]
    ∧ (runSearchFilterSort (FetchSpotPrices c5Types "z1" c5History 3600) 5 "price").Perm
        ((FetchSpotPrices c5Types "z1" c5History 3600).filter
          (fun r => decide (r.price ≤ 5)))
    ∧ List.Pairwise (fun a b : SpotSearchResult => a.price ≤ b.price)
        (runSearchFilterSort (FetchSpotPrices c5Types "z1" c5History 3600) 5 "price") :=
  ⟨by decide,
   (fetchSpotPrices_and_search_pipeline c5Types "z1" c5History 3600 5).2.2.2.1 (by decide),
   (fetchSpotPrices_and_search_pipeline c5Types "z1" c5History 3600 5).2.2.2.2⟩

/-- C6: every candidate offer computed by recoverInstance, every displayed
candidate (the first 10), and the cheapest auto-chosen candidate (the list
head) lies in the stuck instance's availability zone. -/
theorem recoverCandidates_zone_locked (catalog : List CatalogType) (history : List SpotObs)
    (now currentVCPUs currentMemMiB : Nat) (hasGPU : Bool) (arch az : String)
    (minVCPUFlag : Nat) (minMemFlag maxPriceFlag defaultMaxPriceCfg : ℚ) (haz : az ≠ "") :
    (∀ r ∈ recoverCandidates catalog history now currentVCPUs currentMemMiB hasGPU arch az
        minVCPUFlag minMemFlag maxPriceFlag defaultMaxPriceCfg, r.az = az)
    ∧ (∀ r ∈ (recoverCandidates catalog history now currentVCPUs currentMemMiB hasGPU arch az
        minVCPUFlag minMemFlag maxPriceFlag defaultMaxPriceCfg).take 10, r.az = az)
    ∧ (∀ r, (recoverCandidates catalog history now currentVCPUs currentMemMiB hasGPU arch az
        minVCPUFlag minMemFlag maxPriceFlag defaultMaxPriceCfg).head? = some r → r.az = az) := by
  have hmain : ∀ r ∈ recoverCandidates catalog history now currentVCPUs currentMemMiB hasGPU
      arch az minVCPUFlag minMemFlag maxPriceFlag defaultMaxPriceCfg, r.az = az := by
    intro r hr
    simp only [recoverCandidates] at hr
    have hr2 := (sortByLe_perm priceLE _).mem_iff.mp hr
    by_cases hd : 0 < (if 0 < maxPriceFlag then maxPriceFlag else defaultMaxPriceCfg)
    · rw [if_pos hd] at hr2
      exact fetchSpotPrices_az _ az history now haz r (List.mem_of_mem_filter hr2)
    · rw [if_neg hd] at hr2
      exact fetchSpotPrices_az _ az history now haz r hr2
  refine ⟨hmain, ?_, ?_⟩
  · intro r hr
    exact hmain r (List.take_subset 10 _ hr)
  · intro r hr
    exact hmain r (List.mem_of_mem_head? (Option.mem_def.mpr hr))

/-- Witness for C6: on a concrete stuck instance in z1 with cheaper
capacity available in z2, the cheapest candidate chosen is still in z1. -/
theorem recoverCandidates_zone_locked_witness :
    (recoverCandidates c6Catalog c6History 3600 2 8192 false "x86_64" "z1" 0 0 0 0).head? =
      some c6Expected
    ∧ c6Expected.az = "z1" := by
  have hz : ("z1" : String) ≠ "" := by decide
  have hfit : FetchInstanceTypes c6Catalog "x86_64" (2 / 2) (((8192 : ℕ) : ℚ) / 1024 / 2) false =
      [⟨"m5.large", 2, 8192, false, "Up to 10 Gigabit"⟩] := by
    unfold FetchInstanceTypes c6Catalog
    norm_num
  have hrc : recoverCandidates c6Catalog c6History 3600 2 8192 false "x86_64" "z1" 0 0 0 0 =
      sortByLe priceLE
        (FetchSpotPrices [⟨"m5.large", 2, 8192, false, "Up to 10 Gigabit"⟩] "z1"
          c6History 3600) := by
    simp only [recoverCandidates]
    rw [if_neg (by norm_num), if_neg (by norm_num), if_neg (by norm_num), hfit]
  have hev : (recoverCandidates c6Catalog c6History 3600 2 8192 false "x86_64" "z1" 0 0 0 0).head? =
      some c6Expected := by
    rw [hrc]
    decide
  exact ⟨hev,
    (recoverCandidates_zone_locked c6Catalog c6History 3600 2 8192 false "x86_64" "z1"
      0 0 0 0 hz).2.2 c6Expected hev⟩

/-! ## C3: resize to the same type is a no-op -/

/-- C3: when the requested type equals the instance's current type,
resizeInstance succeeds immediately, leaves the cloud untouched, and issues
no mutating control-plane call (its trace is empty). -/
theorem resizeInstance_same_type_noop (f : Faults) (d instanceID newType : String)
    (c : Cloud) (inst : CInstance) (hlook : lookupInstance c instanceID = some inst)
    (hty : inst.instType = newType) :
    resizeInstance f d instanceID newType c = (.ok (), c, []) := by
  simp [resizeInstance, hlook, hty]

/-- Witness for C3: resizing the concrete running instance to its own type
changes nothing and issues no calls. -/
theorem resizeInstance_same_type_noop_witness :
    resizeInstance noFaults "0.50" "i-1" "m5.large" c3Cloud = (.ok (), c3Cloud, []) :=
  resizeInstance_same_type_noop noFaults "0.50" "i-1" "m5.large" c3Cloud c3Inst
    (by decide) rfl

/-! ## C2 and C10: the replace-migrate trace -/

/-- The stop-old phase issues at most the StopInstances call. -/
theorem stopOldPhase_trace (f : Faults) (id st : String) (c : Cloud) :
    ∀ call ∈ (stopOldPhase f id st c).2.2, call = .stopInstances [id] := by
  unfold stopOldPhase
  split_ifs <;> intro call hc <;> simp_all

/-- The detach-phase trace consists of DetachVolume calls only. -/
theorem detachPhase_trace (f : Faults) (id : String) :
    ∀ (vols : List (String × String)) (c : Cloud),
      ∀ call ∈ (detachPhase f id vols c).2.2, ∃ v, call = .detachVolume v id := by
  intro vols
  induction vols with
  | nil => intro c call hc; cases hc
  | cons v rest ih =>
    intro c call hc
    obtain ⟨vid, dev⟩ := v
    by_cases hf : f.detachVolume
    · simp only [detachPhase, if_pos hf] at hc
      rcases List.mem_singleton.mp hc with h
      exact ⟨vid, h⟩
    · simp only [detachPhase, if_neg hf] at hc
      rcases List.mem_cons.mp hc with h | h
      · exact ⟨vid, h⟩
      · exact ih _ call h


/-- The attach-phase trace consists of AttachVolume calls on the new
instance only. -/
theorem attachPhase_trace (f : Faults) (newID : String) :
    ∀ (vols : List (String × String)) (c : Cloud),
      ∀ call ∈ (attachPhase f newID vols c).2, ∃ v dev, call = .attachVolume v newID dev := by
  intro vols
  induction vols with
  | nil => intro c call hc; cases hc
  | cons v rest ih =>
    intro c call hc
    obtain ⟨vid, dev⟩ := v
    simp only [attachPhase] at hc
    rcases List.mem_cons.mp hc with h | h
    · exact ⟨vid, dev, h⟩
    · exact ih _ call h

/-- A search that succeeds in a list prefix succeeds in the whole list. -/
theorem find?_append_left {α : Type} (p : α → Bool) (l1 l2 : List α) (r : α)
    (h : l1.find? p = some r) : (l1 ++ l2).find? p = some r := by
  induction l1 with
  | nil => cases h
  | cons x rest ih =>
    by_cases hp : p x
    · rw [List.find?_cons_of_pos _ hp] at h
      rw [List.cons_append, List.find?_cons_of_pos _ hp]
      exact h
    · rw [List.find?_cons_of_neg _ hp] at h
      rw [List.cons_append, List.find?_cons_of_neg _ hp]
      exact ih h

/-- Searching a mapped list under an id-preserving map. -/
theorem find?_map_of_id (g : CInstance → CInstance) (hg : ∀ i, (g i).id = i.id)
    (l : List CInstance) (id : String) :
    (l.map g).find? (fun i => i.id == id) = (l.find? (fun i => i.id == id)).map g := by
  induction l with
  | nil => rfl
  | cons x rest ih =>
    rw [List.map_cons]
    by_cases hp : (x.id == id) = true
    · have h1 : List.find? (fun i => i.id == id) (g x :: List.map g rest) = some (g x) :=
        List.find?_cons_of_pos _ (by simpa [hg] using hp)
      have h2 : List.find? (fun i => i.id == id) (x :: rest) = some x :=
        List.find?_cons_of_pos _ hp
      rw [h1, h2]
      rfl
    · have h1 : List.find? (fun i => i.id == id) (g x :: List.map g rest) =
          List.find? (fun i => i.id == id) (List.map g rest) :=
        List.find?_cons_of_neg _ (by simpa [hg] using hp)
      have h2 : List.find? (fun i => i.id == id) (x :: rest) =
          List.find? (fun i => i.id == id) rest :=
        List.find?_cons_of_neg _ hp
      rw [h1, h2, ih]

/-- Looking up an instance after a state transition on it. -/
theorem lookupInstance_setState (c : Cloud) (a st id : String) :
    lookupInstance (setInstanceState c a st) id =
      (lookupInstance c id).map (fun i => if i.id = a then { i with state := st } else i) := by
  unfold lookupInstance setInstanceState
  exact find?_map_of_id _ (fun i => by by_cases h : i.id = a <;> simp [h]) c.instances id

/-- The found instance carries the looked-up id. -/
theorem lookupInstance_id {c : Cloud} {id : String} {i : CInstance}
    (h : lookupInstance c id = some i) : i.id = id := by
  have := List.find?_some h
  simpa using this

/-- Frame facts of the stop-old phase: volumes, spot requests, the instance
count and the id counter are untouched, and the stopped instance is either
unchanged, stopping, or stopped. -/
theorem stopOldPhase_frame (f : Faults) (id st : String) (c : Cloud) :
    (stopOldPhase f id st c).2.1.volumes = c.volumes
    ∧ (stopOldPhase f id st c).2.1.spotRequests = c.spotRequests
    ∧ (stopOldPhase f id st c).2.1.instances.length = c.instances.length
    ∧ (stopOldPhase f id st c).2.1.nextId = c.nextId
    ∧ ∀ i, lookupInstance c id = some i →
        ∃ i2, lookupInstance (stopOldPhase f id st c).2.1 id = some i2 ∧
          (i2 = i ∨ i2 = { i with state := "stopping" } ∨ i2 = { i with state := "stopped" }) := by
  have hone : ∀ (c2 : Cloud) (s : String), ∀ i, lookupInstance c2 id = some i →
      lookupInstance (setInstanceState c2 id s) id = some { i with state := s } := by
    intro c2 s i hi
    rw [lookupInstance_setState, hi]
    simp [lookupInstance_id hi]
  unfold stopOldPhase
  split_ifs <;>
    refine ⟨rfl, rfl, by simp [setInstanceState], rfl, ?_⟩
  · intro i hi
    exact ⟨i, hi, Or.inl rfl⟩
  · intro i hi
    exact ⟨{ i with state := "stopping" }, hone c "stopping" i hi, Or.inr (Or.inl rfl)⟩
  · intro i hi
    refine ⟨{ i with state := "stopped" }, ?_, Or.inr (Or.inr rfl)⟩
    have h1 := hone c "stopping" i hi
    have h2 := hone (setInstanceState c id "stopping") "stopped" _ h1
    exact h2
  · intro i hi
    exact ⟨i, hi, Or.inl rfl⟩
  · intro i hi
    exact ⟨i, hi, Or.inl rfl⟩

/-- The finish-migration phase never issues a RunInstances call. -/
theorem finishMigration_no_launch (f : Faults) (inst : CInstance) (newID : String)
    (extraVols : List (String × String)) (c : Cloud) :
    ∀ call ∈ (finishMigration f inst newID extraVols c).2.2, isLaunchCall call = false := by
  intro call hc
  unfold finishMigration at hc
  rcases hdp : detachPhase f inst.id extraVols c with ⟨res, c1, tr1⟩
  rw [hdp] at hc
  have htr1 : ∀ call ∈ tr1, isLaunchCall call = false := by
    intro call2 hc2
    have := detachPhase_trace f inst.id extraVols c call2 (by rw [hdp]; exact hc2)
    obtain ⟨v, hv⟩ := this
    rw [hv]
    rfl
  match res with
  | .error e =>
    exact htr1 call hc
  | .ok _ =>
    dsimp only at hc
    rcases hdw : detachWaitPhase f extraVols c1 with ⟨res2, c2, tr2⟩
    rw [hdw] at hc
    match res2 with
    | .error e => exact htr1 call hc
    | .ok _ =>
      dsimp only at hc
      have hattach : ∀ call ∈ (attachPhase f newID extraVols
          (setInstanceState (setInstanceState c2 inst.id "shutting-down")
            inst.id "terminated")).2, isLaunchCall call = false := by
        intro call2 hc2
        obtain ⟨v, dev, hv⟩ := attachPhase_trace f newID extraVols _ call2 hc2
        rw [hv]
        rfl
      split_ifs at hc <;>
        (repeat (rcases List.mem_append.mp hc with hc | hc <;> clear * - hc htr1 hattach)) <;>
        first
        | exact htr1 call hc
        | exact hattach call hc
        | (rcases List.mem_singleton.mp hc with rfl; rfl)

/-- The after-confirmation phase never issues a RunInstances call. -/
theorem afterConfirm_no_launch (f : Faults) (inst : CInstance) (newID : String)
    (userData : GoStr) (extraVols : List (String × String)) (c : Cloud) :
    ∀ call ∈ (afterConfirm f inst newID userData extraVols c).2.2,
      isLaunchCall call = false := by
  intro call hc
  unfold afterConfirm at hc
  have hfm := finishMigration_no_launch f inst newID extraVols
  split_ifs at hc <;>
    try (rcases List.mem_singleton.mp hc with rfl; rfl)
  all_goals (
    rcases hsp : inst.spotRequestId with _ | sid <;> rw [hsp] at hc <;> dsimp only at hc <;>
    (try (rcases hbd : b64Decode userData with _ | v <;> rw [hbd] at hc <;> dsimp only at hc)) <;>
    (repeat (rcases List.mem_append.mp hc with hc | hc)) <;>
    first
    | exact hfm _ call hc
    | (rcases List.mem_singleton.mp hc with rfl
       rfl)
    | (rcases List.mem_cons.mp hc with rfl | hc
       · rfl
       · rcases List.mem_singleton.mp hc with rfl
         rfl))

/-- C2: in the spot replace-migrate path no destructive action (cancelling
the spot request, detaching a volume, terminating an instance) is taken
until the replacement has been launched and observed running: if the launch
call or the running wait fails, resizeSpotInstance returns the error with
no destructive call in its trace; and in every run the trace is a
destructive-free prefix followed, if by anything, by the launch call. -/
theorem resizeSpotInstance_launch_before_destruction (f : Faults) (d : String)
    (inst : CInstance) (newType : String) (c : Cloud) :
    ((f.runInstances = true ∨ f.runWait = true) →
      (∃ e, (resizeSpotInstance f d inst newType c).1 = .error e)
      ∧ ∀ call ∈ (resizeSpotInstance f d inst newType c).2.2, destructiveCall call = false)
    ∧ ∃ t1 t2, (resizeSpotInstance f d inst newType c).2.2 = t1 ++ t2
      ∧ (∀ call ∈ t1, destructiveCall call = false)
      ∧ (t2 = [] ∨ t2.head? = some (.runInstances newType launchBDMs)) := by
  unfold resizeSpotInstance
  rcases hsp : stopOldPhase f inst.id inst.state c with ⟨res, c1, tr1⟩
  have htr1 : ∀ call ∈ tr1, destructiveCall call = false := by
    intro call h
    have := stopOldPhase_trace f inst.id inst.state c call (by rw [hsp]; exact h)
    rw [this]
    rfl
  match res with
  | .error e =>
    try dsimp only
    exact ⟨fun _ => ⟨⟨e, rfl⟩, htr1⟩, tr1, [], by simp, htr1, Or.inl rfl⟩
  | .ok _ =>
    try dsimp only
    by_cases hri : f.runInstances
    · rw [if_pos hri]
      try dsimp only
      have hall : ∀ call ∈ tr1 ++ [ApiCall.runInstances newType launchBDMs],
          destructiveCall call = false := by
        intro call h
        rcases List.mem_append.mp h with h | h
        · exact htr1 call h
        · rcases List.mem_singleton.mp h with rfl
          rfl
      exact ⟨fun _ => ⟨⟨_, rfl⟩, hall⟩,
        tr1, [ApiCall.runInstances newType launchBDMs], rfl, htr1, Or.inr rfl⟩
    · rw [if_neg hri]
      try dsimp only
      by_cases hrw : f.runWait
      · rw [if_pos hrw]
        try dsimp only
        have hall : ∀ call ∈ tr1 ++ [ApiCall.runInstances newType launchBDMs],
            destructiveCall call = false := by
          intro call h
          rcases List.mem_append.mp h with h | h
          · exact htr1 call h
          · rcases List.mem_singleton.mp h with rfl
            rfl
        exact ⟨fun _ => ⟨⟨_, rfl⟩, hall⟩,
          tr1, [ApiCall.runInstances newType launchBDMs], rfl, htr1, Or.inr rfl⟩
      · rw [if_neg hrw]
        try dsimp only
        refine ⟨fun hor => ?_, tr1,
          ApiCall.runInstances newType launchBDMs ::
            (afterConfirm f inst
              (launchApply c1 inst newType (gatherUserData f inst)
                (spotMaxPrice f d inst c1)).2
              (gatherUserData f inst) (extraVolumesOf inst)
              (setInstanceState
                (launchApply c1 inst newType (gatherUserData f inst)
                  (spotMaxPrice f d inst c1)).1
                (launchApply c1 inst newType (gatherUserData f inst)
                  (spotMaxPrice f d inst c1)).2 "running")).2.2,
          by simp, htr1, Or.inr rfl⟩
        rcases hor with h | h
        · exact absurd h (by simp [hri])
        · exact absurd h (by simp [hrw])

/-- Witness for C2: with the concrete running spot instance and a simulated
launch failure, the error is returned and the trace holds no destructive
call. -/
theorem resizeSpotInstance_launch_before_destruction_witness :
    (∃ e, (resizeSpotInstance c1Faults "0.30" c1Inst "c5.xlarge" c1Cloud).1 = .error e)
    ∧ ∀ call ∈ (resizeSpotInstance c1Faults "0.30" c1Inst "c5.xlarge" c1Cloud).2.2,
        destructiveCall call = false :=
  (resizeSpotInstance_launch_before_destruction c1Faults "0.30" c1Inst "c5.xlarge" c1Cloud).1
    (Or.inl rfl)

/-- C10: the replacement is always launched with exactly one block-device
mapping, a fresh 75 GiB gp3 root volume at /dev/xvda, regardless of the
original instance's volume configuration: every RunInstances call in the
trace of resizeSpotInstance carries exactly that mapping (and the new
type), and at most one launch call is ever issued. -/
theorem resizeSpotInstance_fixed_root_mapping (f : Faults) (d : String)
    (inst : CInstance) (newType : String) (c : Cloud) :
    launchBDMs = [⟨"/dev/xvda", "gp3", 75⟩]
    ∧ (∀ t bd, ApiCall.runInstances t bd ∈ (resizeSpotInstance f d inst newType c).2.2 →
        t = newType ∧ bd = launchBDMs)
    ∧ ((resizeSpotInstance f d inst newType c).2.2.filter isLaunchCall).length ≤ 1 := by
  refine ⟨rfl, ?_⟩
  unfold resizeSpotInstance
  rcases hsp : stopOldPhase f inst.id inst.state c with ⟨res, c1, tr1⟩
  have htr1 : ∀ call ∈ tr1, isLaunchCall call = false := by
    intro call h
    have := stopOldPhase_trace f inst.id inst.state c call (by rw [hsp]; exact h)
    rw [this]
    rfl
  have htr1f : tr1.filter isLaunchCall = [] := by
    rw [List.filter_eq_nil_iff]
    intro call h
    rw [htr1 call h]
    exact Bool.false_ne_true
  have hrunmem : ∀ (tr : List ApiCall), (∀ call ∈ tr, isLaunchCall call = false) →
      ∀ t bd, ApiCall.runInstances t bd ∈ tr → False := by
    intro tr hall t bd hmem
    have := hall _ hmem
    simp [isLaunchCall] at this
  match res with
  | .error e =>
    refine ⟨fun t bd hmem => absurd hmem (fun h => hrunmem tr1 htr1 t bd h), ?_⟩
    show (tr1.filter isLaunchCall).length ≤ 1
    rw [htr1f]
    simp
  | .ok _ =>
    try dsimp only
    have hone : ∀ t bd,
        ApiCall.runInstances t bd ∈ tr1 ++ [ApiCall.runInstances newType launchBDMs] →
        t = newType ∧ bd = launchBDMs := by
      intro t bd hmem
      rcases List.mem_append.mp hmem with h | h
      · exact absurd h (fun h => hrunmem tr1 htr1 t bd h)
      · rcases List.mem_singleton.mp h with h
        exact ⟨(ApiCall.runInstances.injEq _ _ _ _).mp h |>.1,
          (ApiCall.runInstances.injEq _ _ _ _).mp h |>.2⟩
    have honef : ((tr1 ++ [ApiCall.runInstances newType launchBDMs]).filter
        isLaunchCall).length ≤ 1 := by
      rw [List.filter_append, htr1f]
      simp [isLaunchCall]
    by_cases hri : f.runInstances
    · rw [if_pos hri]
      exact ⟨hone, honef⟩
    · rw [if_neg hri]
      try dsimp only
      by_cases hrw : f.runWait
      · rw [if_pos hrw]
        exact ⟨hone, honef⟩
      · rw [if_neg hrw]
        try dsimp only
        have hac := afterConfirm_no_launch f inst
          (launchApply c1 inst newType (gatherUserData f inst) (spotMaxPrice f d inst c1)).2
          (gatherUserData f inst) (extraVolumesOf inst)
          (setInstanceState
            (launchApply c1 inst newType (gatherUserData f inst) (spotMaxPrice f d inst c1)).1
            (launchApply c1 inst newType (gatherUserData f inst) (spotMaxPrice f d inst c1)).2
            "running")
        refine ⟨?_, ?_⟩
        · intro t bd hmem
          rcases List.mem_append.mp hmem with h | h
          · exact hone t bd h
          · exact absurd h (fun h => hrunmem _ hac t bd h)
        · rw [List.filter_append]
          have hacf : ((afterConfirm f inst
              (launchApply c1 inst newType (gatherUserData f inst)
                (spotMaxPrice f d inst c1)).2
              (gatherUserData f inst) (extraVolumesOf inst)
              (setInstanceState
                (launchApply c1 inst newType (gatherUserData f inst)
                  (spotMaxPrice f d inst c1)).1
                (launchApply c1 inst newType (gatherUserData f inst)
                  (spotMaxPrice f d inst c1)).2 "running")).2.2.filter isLaunchCall) = [] := by
            rw [List.filter_eq_nil_iff]
            intro call h
            rw [hac call h]
            exact Bool.false_ne_true
          rw [hacf]
          simpa using honef

/-- Witness for C10: on the concrete spot instance, the happy-path run
issues the launch with the fixed fresh-root mapping exactly once. -/
theorem resizeSpotInstance_fixed_root_mapping_witness :
    ApiCall.runInstances "c5.xlarge" launchBDMs ∈
      (resizeSpotInstance noFaults "0.30" c1Inst "c5.xlarge" c1Cloud).2.2
    ∧ launchBDMs = [⟨"/dev/xvda", "gp3", 75⟩]
    ∧ ((resizeSpotInstance noFaults "0.30" c1Inst "c5.xlarge" c1Cloud).2.2.filter
        isLaunchCall).length ≤ 1 :=
  ⟨by decide,
   (resizeSpotInstance_fixed_root_mapping noFaults "0.30" c1Inst "c5.xlarge" c1Cloud).1,
   (resizeSpotInstance_fixed_root_mapping noFaults "0.30" c1Inst "c5.xlarge" c1Cloud).2.2⟩

/-- Frame facts of the launch: volumes are untouched and the spot-request
and instance lists only grow by the new entries. -/
theorem launchApply_frame (c : Cloud) (inst : CInstance) (newType : String)
    (userData : GoStr) (maxPrice : String) :
    (launchApply c inst newType userData maxPrice).1.volumes = c.volumes
    ∧ (∃ r, (launchApply c inst newType userData maxPrice).1.spotRequests =
        c.spotRequests ++ [r])
    ∧ (∃ ni, (launchApply c inst newType userData maxPrice).1.instances =
        c.instances ++ [ni]) := by
  unfold launchApply
  exact ⟨rfl, ⟨_, rfl⟩, ⟨_, rfl⟩⟩

/-- C1 counterexample: with a running original spot instance and a simulated
launch failure, the resize attempt stops the original before launching, so
after the failed launch the original's lifecycle state has changed to
stopped — it is not still running as the claim states — even though its
volumes (vol-1 included) and its spot request are untouched. -/
theorem resizeSpotInstance_failed_launch_counterexample :
    c1Inst.state = "running"
    ∧ lookupInstance c1Cloud "i-orig" = some c1Inst
    ∧ (resizeSpotInstance c1Faults "0.30" c1Inst "c5.xlarge" c1Cloud).1 =
        .error "launching new instance (old instance is still intact)"
    ∧ lookupInstance (resizeSpotInstance c1Faults "0.30" c1Inst "c5.xlarge" c1Cloud).2.1
        "i-orig" = some { c1Inst with state := "stopped" }
    ∧ ({ c1Inst with state := "stopped" } : CInstance).state ≠ "running"
    ∧ (resizeSpotInstance c1Faults "0.30" c1Inst "c5.xlarge" c1Cloud).2.1.volumes =
        c1Cloud.volumes
    ∧ lookupSpotRequest (resizeSpotInstance c1Faults "0.30" c1Inst "c5.xlarge" c1Cloud).2.1
        "sir-1" = some ⟨"sir-1", some "0.30", "active"⟩ :=
  ⟨rfl, by decide, rfl, by decide, by decide, by decide, by decide⟩

/-- C1 (amended): when a spot resize attempt fails at the replacement
launch or while waiting for the replacement to run, resizeSpotInstance
returns an error, the volume set is bit-for-bit unchanged, every
pre-existing spot request is unchanged, no destructive call was issued —
but the original instance's lifecycle state is not necessarily preserved:
the path stops a running original before launching, so the original is
found either unchanged, stopping, or stopped. -/
theorem resizeSpotInstance_failed_launch_frame (f : Faults) (d : String)
    (inst : CInstance) (newType : String) (c : Cloud)
    (hf : f.runInstances = true ∨ f.runWait = true) :
    (∃ e, (resizeSpotInstance f d inst newType c).1 = .error e)
    ∧ (resizeSpotInstance f d inst newType c).2.1.volumes = c.volumes
    ∧ (∀ sid r, lookupSpotRequest c sid = some r →
        lookupSpotRequest (resizeSpotInstance f d inst newType c).2.1 sid = some r)
    ∧ (∀ call ∈ (resizeSpotInstance f d inst newType c).2.2, destructiveCall call = false)
    ∧ (∀ i, lookupInstance c inst.id = some i →
        ∃ i2, lookupInstance (resizeSpotInstance f d inst newType c).2.1 inst.id = some i2
          ∧ (i2 = i ∨ i2 = { i with state := "stopping" }
              ∨ i2 = { i with state := "stopped" })) := by
  have hframe := stopOldPhase_frame f inst.id inst.state c
  unfold resizeSpotInstance
  rcases hsp : stopOldPhase f inst.id inst.state c with ⟨res, c1, tr1⟩
  rw [hsp] at hframe
  try dsimp only at hframe
  obtain ⟨hvol, hspot, _, _, hlook⟩ := hframe
  have htr1 : ∀ call ∈ tr1, destructiveCall call = false := by
    intro call h
    have := stopOldPhase_trace f inst.id inst.state c call (by rw [hsp]; exact h)
    rw [this]
    rfl
  have hspotc1 : ∀ sid r, lookupSpotRequest c sid = some r →
      lookupSpotRequest c1 sid = some r := by
    intro sid r hr
    unfold lookupSpotRequest at hr ⊢
    rw [hspot]
    exact hr
  match res with
  | .error e =>
    try dsimp only
    exact ⟨⟨e, rfl⟩, hvol, hspotc1, htr1, hlook⟩
  | .ok _ =>
    try dsimp only
    have htr2 : ∀ call ∈ tr1 ++ [ApiCall.runInstances newType launchBDMs],
        destructiveCall call = false := by
      intro call h
      rcases List.mem_append.mp h with h | h
      · exact htr1 call h
      · rcases List.mem_singleton.mp h with rfl
        rfl
    by_cases hri : f.runInstances
    · rw [if_pos hri]
      try dsimp only
      exact ⟨⟨_, rfl⟩, hvol, hspotc1, htr2, hlook⟩
    · rw [if_neg hri]
      try dsimp only
      by_cases hrw : f.runWait
      · rw [if_pos hrw]
        try dsimp only
        obtain ⟨hlv, ⟨r0, hlr⟩, ⟨ni, hli⟩⟩ := launchApply_frame c1 inst newType
          (gatherUserData f inst) (spotMaxPrice f d inst c1)
        refine ⟨⟨_, rfl⟩, by rw [hlv]; exact hvol, ?_, htr2, ?_⟩
        · intro sid r hr
          unfold lookupSpotRequest
          rw [hlr]
          exact find?_append_left _ _ _ _ (hspotc1 sid r hr)
        · intro i hi
          obtain ⟨i2, hi2, hcases⟩ := hlook i hi
          refine ⟨i2, ?_, hcases⟩
          unfold lookupInstance
          rw [hli]
          exact find?_append_left _ _ _ _ hi2
      · rcases hf with h | h
        · exact absurd h hri
        · exact absurd h hrw

/-- Witness for the amended C1: on the concrete fixture with the simulated
launch failure the error is returned, the volumes are unchanged, and the
original instance is found stopped. -/
theorem resizeSpotInstance_failed_launch_frame_witness :
    (∃ e, (resizeSpotInstance c1Faults "0.30" c1Inst "c5.xlarge" c1Cloud).1 = .error e)
    ∧ (resizeSpotInstance c1Faults "0.30" c1Inst "c5.xlarge" c1Cloud).2.1.volumes =
        c1Cloud.volumes :=
  ⟨(resizeSpotInstance_failed_launch_frame c1Faults "0.30" c1Inst "c5.xlarge" c1Cloud
      (Or.inl rfl)).1,
   (resizeSpotInstance_failed_launch_frame c1Faults "0.30" c1Inst "c5.xlarge" c1Cloud
      (Or.inl rfl)).2.1⟩

/-- Searching an appended list when the prefix has no match. -/
theorem find?_append_of_none {α : Type} (p : α → Bool) (l1 l2 : List α)
    (h : l1.find? p = none) : (l1 ++ l2).find? p = l2.find? p := by
  induction l1 with
  | nil => rfl
  | cons x rest ih =>
    by_cases hp : p x
    · rw [List.find?_cons_of_pos _ hp] at h
      cases h
    · rw [List.find?_cons_of_neg _ hp] at h
      rw [List.cons_append, List.find?_cons_of_neg _ hp]
      exact ih h

/-- C4: relocating a volume with volumeMove produces a new volume carrying
over the source's size, performance class (type, IOPS, throughput) and tag
set, created in the target zone of the target region, whose identity
differs from the source volume's identity. -/
theorem volumeMove_roundtrip (c : VolCloud) (sourceRegion : String) (volID : Nat)
    (targetRegion targetAZFlag : String) (cleanup : Bool) (srcVol : MVolume)
    (hfresh : volFreshOK c)
    (hsrc : c.volumes.find? (fun v => v.id == volID) = some srcVol) :
    ∃ nid c2, volumeMove c sourceRegion volID targetRegion targetAZFlag cleanup =
        .ok (nid, c2)
      ∧ ∃ nv, c2.volumes.find? (fun v => v.id == nid) = some nv
        ∧ nv.size = srcVol.size
        ∧ nv.volType = srcVol.volType
        ∧ nv.iops = srcVol.iops
        ∧ nv.throughput = srcVol.throughput
        ∧ nv.tags = srcVol.tags
        ∧ nv.region = targetRegion
        ∧ nv.az = (if targetAZFlag = "" then targetRegion ++ "a" else targetAZFlag)
        ∧ nid ≠ srcVol.id := by
  have hmem := List.mem_of_find?_eq_some hsrc
  have hlt : srcVol.id < c.nextId := hfresh srcVol hmem
  have hnone : c.volumes.find? (fun v => v.id == (c.nextId + 1 + 1)) = none := by
    rw [List.find?_eq_none]
    intro v hv
    have := hfresh v hv
    simp only [beq_iff_eq]
    omega
  unfold volumeMove
  rw [hsrc]
  try dsimp only
  by_cases hcl : cleanup = true
  · rw [if_pos hcl]
    refine ⟨c.nextId + 1 + 1, _, rfl,
      ⟨c.nextId + 1 + 1, srcVol.size, srcVol.volType, srcVol.iops, srcVol.throughput,
        (if targetAZFlag = "" then targetRegion ++ "a" else targetAZFlag), targetRegion,
        "available", srcVol.tags⟩, ?_, rfl, rfl, rfl, rfl, rfl, rfl, rfl, by omega⟩
    show (c.volumes ++ [_]).find? _ = _
    rw [find?_append_of_none _ _ _ hnone]
    exact List.find?_cons_of_pos _ (by simp)
  · rw [if_neg hcl]
    refine ⟨c.nextId + 1 + 1, _, rfl,
      ⟨c.nextId + 1 + 1, srcVol.size, srcVol.volType, srcVol.iops, srcVol.throughput,
        (if targetAZFlag = "" then targetRegion ++ "a" else targetAZFlag), targetRegion,
        "available", srcVol.tags⟩, ?_, rfl, rfl, rfl, rfl, rfl, rfl, rfl, by omega⟩
    show (c.volumes ++ [_]).find? _ = _
    rw [find?_append_of_none _ _ _ hnone]
    exact List.find?_cons_of_pos _ (by simp)

/-- Witness for C4: relocating the concrete 100 GiB gp3 volume with 3000
IOPS, 125 throughput and two tags from us-east-1 to eu-west-1 yields a new
volume with the same attributes in zone eu-west-1a under a fresh identity. -/
theorem volumeMove_roundtrip_witness :
    ∃ nid c2, volumeMove c4Cloud "us-east-1" 0 "eu-west-1" "" true = .ok (nid, c2)
      ∧ ∃ nv, c2.volumes.find? (fun v => v.id == nid) = some nv
        ∧ nv.size = c4SrcVol.size
        ∧ nv.volType = c4SrcVol.volType
        ∧ nv.iops = c4SrcVol.iops
        ∧ nv.throughput = c4SrcVol.throughput
        ∧ nv.tags = c4SrcVol.tags
        ∧ nv.region = "eu-west-1"
        ∧ nv.az = (if "" = "" then "eu-west-1" ++ "a" else "")
        ∧ nid ≠ c4SrcVol.id :=
  volumeMove_roundtrip c4Cloud "us-east-1" 0 "eu-west-1" "" true c4SrcVol
    (by unfold volFreshOK; decide) (by decide)

/-- Any occurrence of a pattern in an append lies in the left part, lies in
the right part, or straddles the boundary with a nonempty piece on each
side (the left piece a suffix of the left part, the right piece a prefix
of the right part). -/
theorem occurrence_split {pat u v : GoStr} (h : pat <:+: u ++ v) :
    pat <:+: u ∨ pat <:+: v
    ∨ ∃ p1 p2, pat = p1 ++ p2 ∧ p1 ≠ [] ∧ p2 ≠ [] ∧ p1 <:+ u ∧ p2 <+: v := by
  obtain ⟨s, t, hst⟩ := h
  have hst2 : s ++ (pat ++ t) = u ++ v := by rw [← List.append_assoc]; exact hst
  have hd : pat ++ t = (u ++ v).drop s.length := by rw [← hst2, List.drop_left]
  by_cases h1 : s.length + pat.length ≤ u.length
  · left
    rw [List.drop_append_eq_append_drop] at hd
    have hz : s.length - u.length = 0 := by omega
    rw [hz, List.drop_zero] at hd
    have hp : pat = (u.drop s.length).take pat.length := by
      have h2 := congrArg (List.take pat.length) hd
      rw [List.take_left, List.take_append_eq_append_take] at h2
      have hz2 : pat.length - (u.drop s.length).length = 0 := by
        rw [List.length_drop]
        omega
      rw [hz2, List.take_zero, List.append_nil] at h2
      exact h2
    rw [hp]
    exact (List.take_prefix _ _).isInfix.trans (List.drop_suffix _ _).isInfix
  · by_cases h2 : u.length ≤ s.length
    · right; left
      rw [List.drop_append_eq_append_drop, List.drop_eq_nil_of_le h2,
        List.nil_append] at hd
      have hp : pat = (v.drop (s.length - u.length)).take pat.length := by
        have h3 := congrArg (List.take pat.length) hd
        rw [List.take_left] at h3
        exact h3
      rw [hp]
      exact (List.take_prefix _ _).isInfix.trans (List.drop_suffix _ _).isInfix
    · right; right
      refine ⟨pat.take (u.length - s.length), pat.drop (u.length - s.length),
        (List.take_append_drop _ _).symm, ?_, ?_, ?_, ?_⟩
      · have hlen : (pat.take (u.length - s.length)).length = u.length - s.length := by
          rw [List.length_take]
          omega
        intro hnil
        rw [hnil] at hlen
        simp at hlen
        omega
      · have hlen : (pat.drop (u.length - s.length)).length =
            pat.length - (u.length - s.length) := List.length_drop _ _
        intro hnil
        rw [hnil] at hlen
        simp at hlen
        omega
      · have hu : u = s ++ pat.take (u.length - s.length) := by
          have h3 := congrArg (List.take u.length) hst2
          rw [List.take_left, List.take_append_eq_append_take,
            List.take_of_length_le (by omega), List.take_append_eq_append_take] at h3
          have hz3 : u.length - s.length - pat.length = 0 := by omega
          rw [hz3, List.take_zero, List.append_nil] at h3
          exact h3.symm
        exact ⟨s, hu.symm⟩
      · have hv : v = pat.drop (u.length - s.length) ++ t := by
          have h4 := congrArg (List.drop u.length) hst2
          rw [List.drop_left, List.drop_append_eq_append_drop,
            List.drop_eq_nil_of_le (by omega), List.nil_append,
            List.drop_append_eq_append_drop] at h4
          have hz4 : u.length - s.length - pat.length = 0 := by omega
          rw [hz4, List.drop_zero] at h4
          exact h4.symm
        exact ⟨t, hv.symm⟩

/-- A pattern infix of the left part of an append is infix of the append. -/
theorem infix_of_left {pat u : GoStr} (v : GoStr) (h : pat <:+: u) : pat <:+: u ++ v :=
  h.trans (List.prefix_append u v).isInfix

/-- A pattern infix of the right part of an append is infix of the append. -/
theorem infix_of_right {pat v : GoStr} (u : GoStr) (h : pat <:+: v) : pat <:+: u ++ v :=
  h.trans (List.suffix_append u v).isInfix

/-- A newline-free pattern cannot straddle a boundary whose left side ends
with a newline: it occurs on one side or the other. -/
theorem nlf_append_iff {pat u v : GoStr} (hpat : 10 ∉ pat)
    (hu : u.getLast? = some 10) : pat <:+: u ++ v ↔ pat <:+: u ∨ pat <:+: v := by
  constructor
  · intro h
    rcases occurrence_split h with h | h | ⟨p1, p2, hpp, hp1, _, hsu, _⟩
    · exact Or.inl h
    · exact Or.inr h
    · exfalso
      obtain ⟨w, hw⟩ := hsu
      have hlast : p1.getLast? = some 10 := by
        rw [← hw, List.getLast?_append_of_ne_nil w hp1] at hu
        exact hu
      have hmem : (10 : Nat) ∈ p1 := List.mem_of_mem_getLast? hlast
      exact hpat (hpp ▸ List.mem_append.mpr (Or.inl hmem))
  · intro h
    rcases h with h | h
    · exact infix_of_left v h
    · exact infix_of_right u h

/-- A newline-free pattern occurring before a trailing newline occurs in
the part before it. -/
theorem nlf_concat_newline {pat w : GoStr} (hpat : 10 ∉ pat)
    (h : pat <:+: w ++ [10]) : pat <:+: w := by
  rcases occurrence_split h with h | h | ⟨p1, p2, hpp, _, hp2, _, hpv⟩
  · exact h
  · have hlen : pat.length ≤ 1 := by simpa using h.length_le
    rcases pat with _ | ⟨x, rest⟩
    · exact List.nil_infix
    · have hx : x ∈ ([10] : GoStr) := h.sublist.subset (List.mem_cons_self x rest)
      have : (10 : Nat) ∈ x :: rest := by
        rcases List.mem_singleton.mp hx with rfl
        exact List.mem_cons_self _ _
      exact absurd this hpat
  · obtain ⟨w2, hw2⟩ := hpv
    rcases p2 with _ | ⟨y, rest⟩
    · exact absurd rfl hp2
    · rw [List.cons_append] at hw2
      have hy : y = 10 := ((List.cons.injEq _ _ _ _).mp hw2).1
      have : (10 : Nat) ∈ pat := by
        rw [hpp, hy]
        exact List.mem_append.mpr (Or.inr (List.mem_cons_self _ _))
      exact absurd this hpat

/-- Occurrences of a newline-free pattern around a line inserted at a
newline boundary lie before the cut, in the inserted line, or after. -/
theorem nlf_insert {pat u hl v : GoStr} (hpat : 10 ∉ pat)
    (hu : u.getLast? = some 10) (hhl : hl.getLast? = some 10)
    (h : pat <:+: u ++ hl ++ v) : pat <:+: u ∨ pat <:+: hl ∨ pat <:+: v := by
  rw [List.append_assoc] at h
  rcases (nlf_append_iff hpat hu).mp h with h | h
  · exact Or.inl h
  · rcases (nlf_append_iff hpat hhl).mp h with h | h
    · exact Or.inr (Or.inl h)
    · exact Or.inr (Or.inr h)

/-- strings.Replace with n=1 is the identity when the pattern is absent. -/
theorem replaceFirst_skip {s old : GoStr} (new : GoStr) (hold : old ≠ [])
    (h : ¬ old <:+: s) : replaceFirst s old new = s := by
  induction s with
  | nil =>
    unfold replaceFirst
    rw [if_neg (by simpa [List.isEmpty_iff] using hold)]
  | cons c rest ih =>
    have hpre : ¬ (old.isPrefixOf (c :: rest) = true) := by
      intro hp
      exact h (isPrefixOf_iff.mp hp).isInfix
    have hrest : ¬ old <:+: rest := by
      intro hi
      exact h (hi.trans (List.suffix_cons c rest).isInfix)
    unfold replaceFirst
    rw [if_neg hpre, ih hrest]

/-- strings.Replace with n=1 on a string containing the pattern splits the
string around the first occurrence and substitutes the replacement. -/
theorem replaceFirst_decomp {s old : GoStr} (new : GoStr) (hold : old ≠ [])
    (h : old <:+: s) :
    ∃ pre post, s = pre ++ old ++ post ∧ replaceFirst s old new = pre ++ new ++ post := by
  induction s with
  | nil => exact absurd (List.infix_nil.mp h) hold
  | cons c rest ih =>
    by_cases hp : old.isPrefixOf (c :: rest) = true
    · obtain ⟨r, hr⟩ := isPrefixOf_iff.mp hp
      refine ⟨[], r, by simpa using hr.symm, ?_⟩
      unfold replaceFirst
      rw [if_pos hp]
      have hd : (c :: rest).drop old.length = r := by
        rw [← hr, List.drop_left]
      rw [hd]
      simp
    · have hrest : old <:+: rest := by
        obtain ⟨s1, t1, hst⟩ := h
        rcases s1 with _ | ⟨x, s1t⟩
        · exact absurd (isPrefixOf_iff.mpr ⟨t1, by simpa using hst⟩) hp
        · refine ⟨s1t, t1, ?_⟩
          rw [List.cons_append, List.cons_append] at hst
          exact ((List.cons.injEq _ _ _ _).mp hst).2
      obtain ⟨pre, post, hs, hr⟩ := ih hrest
      refine ⟨c :: pre, post, by rw [List.cons_append, List.cons_append, ← hs], ?_⟩
      unfold replaceFirst
      rw [if_neg hp, hr]
      rfl

/-- Bytes of a first-occurrence replacement come from the source or from
the replacement string. -/
theorem replaceFirst_mem {s old new : GoStr} {x : Nat}
    (h : x ∈ replaceFirst s old new) : x ∈ s ∨ x ∈ new := by
  induction s with
  | nil =>
    unfold replaceFirst at h
    by_cases he : old.isEmpty
    · rw [if_pos he] at h
      exact Or.inr h
    · rw [if_neg he] at h
      simp at h
  | cons c rest ih =>
    unfold replaceFirst at h
    by_cases hp : old.isPrefixOf (c :: rest) = true
    · rw [if_pos hp] at h
      rcases List.mem_append.mp h with h | h
      · exact Or.inr h
      · exact Or.inl (List.mem_of_mem_drop h)
    · rw [if_neg hp] at h
      rcases List.mem_cons.mp h with rfl | h
      · exact Or.inl (List.mem_cons_self _ _)
      · rcases ih h with h | h
        · exact Or.inl (List.mem_cons_of_mem _ h)
        · exact Or.inr h

/-- A found index of strings.Index marks a position where the pattern
starts. -/
theorem indexOfSub_spec {s pat : GoStr} {i : Nat} (h : indexOfSub s pat = some i) :
    pat.isPrefixOf (s.drop i) = true := by
  induction s generalizing i with
  | nil =>
    unfold indexOfSub at h
    by_cases he : pat.isEmpty
    · rw [if_pos he] at h
      injection h with h0
      subst h0
      simpa [List.isPrefixOf] using he
    · rw [if_neg he] at h
      cases h
  | cons c rest ih =>
    unfold indexOfSub at h
    by_cases hp : pat.isPrefixOf (c :: rest) = true
    · rw [if_pos hp] at h
      injection h with h0
      subst h0
      exact hp
    · rw [if_neg hp] at h
      rcases ho : indexOfSub rest pat with _ | j
      · rw [ho] at h
        cases h
      · rw [ho] at h
        simp at h
        subst h
        exact ih ho

/-- The prefix cut just after a found newline ends with that newline. -/
theorem take_getLast_newline {s : GoStr} {k : Nat}
    (h : ([10] : GoStr).isPrefixOf (s.drop k) = true) :
    (s.take (k + 1)).getLast? = some 10 := by
  obtain ⟨r, hr⟩ := isPrefixOf_iff.mp h
  have hk : s[k]? = some 10 := by
    rw [← List.head?_drop, ← hr]
    rfl
  rw [List.take_succ, hk]
  show (s.take k ++ [10]).getLast? = some 10
  rw [List.getLast?_append_of_ne_nil _ (by simp)]
  rfl

/-- Hexadecimal digit bytes lie in the ASCII digit and letter ranges. -/
theorem hexDigit_facts (n : Nat) (hn : n < 16) : 48 ≤ hexDigit n ∧ hexDigit n ≤ 102 := by
  unfold hexDigit
  split_ifs <;> omega

set_option maxHeartbeats 1000000 in
/-- Percent-q escaping emits neither newlines nor bytes at or above 256. -/
theorem goQuoteChar_facts (c x : Nat) (h : x ∈ goQuoteChar c) : x ≠ 10 ∧ x < 256 := by
  have hx1 := hexDigit_facts (c / 16 % 16) (by omega)
  have hx2 := hexDigit_facts (c % 16) (by omega)
  unfold goQuoteChar at h
  split_ifs at h with h1 h2 h3 h4 h5 h6 h7 h8 h9 h10 <;>
    simp only [List.mem_cons, List.not_mem_nil, or_false] at h <;>
    exact ⟨by omega, by omega⟩

/-- The quoted hostname contains no newline byte. -/
theorem goQuote_no_newline (s : GoStr) : (10 : Nat) ∉ goQuote s := by
  intro h
  unfold goQuote at h
  rcases List.mem_cons.mp h with h | h
  · exact absurd h (by decide)
  · rcases List.mem_append.mp h with h | h
    · obtain ⟨c, _, hx⟩ := List.mem_flatMap.mp h
      exact (goQuoteChar_facts c 10 hx).1 rfl
    · simp at h

/-- Bytes of the quoted hostname are below 256. -/
theorem goQuote_lt (s : GoStr) (x : Nat) (h : x ∈ goQuote s) : x < 256 := by
  unfold goQuote at h
  rcases List.mem_cons.mp h with rfl | h
  · omega
  · rcases List.mem_append.mp h with h | h
    · obtain ⟨c, _, hx⟩ := List.mem_flatMap.mp h
      exact (goQuoteChar_facts c x hx).2
    · rcases List.mem_singleton.mp h with rfl
      omega

/-- The inserted hostname line ends with a newline. -/
theorem hostLine_getLast (h : GoStr) : (hostLine h).getLast? = some 10 := by
  unfold hostLine
  rw [List.getLast?_append_of_ne_nil _ (by decide)]
  decide

/-- The inserted hostname line has exactly one newline byte. -/
theorem hostLine_count_newline (h : GoStr) : (hostLine h).count 10 = 1 := by
  unfold hostLine
  rw [List.count_append, List.count_append]
  have h1 : (str "  networking.hostName = ").count 10 = 0 := by decide
  have h2 : (goQuote h).count 10 = 0 := List.count_eq_zero.mpr (goQuote_no_newline h)
  have h3 : (str ";\n").count 10 = 1 := by decide
  omega

/-- The inserted hostname line starts with a blank. -/
theorem hostLine_head (h : GoStr) : (hostLine h).head? = some 32 := by
  unfold hostLine
  rfl

/-- Bytes of the inserted hostname line are below 256. -/
theorem hostLine_lt (h : GoStr) (x : Nat) (hx : x ∈ hostLine h) : x < 256 := by
  unfold hostLine at hx
  rcases List.mem_append.mp hx with hx | hx
  · rcases List.mem_append.mp hx with hx | hx
    · have hall : ∀ y ∈ str "  networking.hostName = ", y < 256 := by decide
      exact hall x hx
    · exact goQuote_lt _ x hx
  · have hall : ∀ y ∈ str ";\n", y < 256 := by decide
    exact hall x hx

/-- The hostname line contains the networking.hostName guard pattern. -/
theorem hostLine_has_guard (h : GoStr) :
    str "networking.hostName" <:+: hostLine h := by
  have h1 : str "networking.hostName" <:+: str "  networking.hostName = " :=
    (containsSub_iff (str "  networking.hostName = ") (str "networking.hostName")).mp
      (by decide)
  unfold hostLine
  exact infix_of_left _ (infix_of_left _ h1)

/-- Case analysis of the hostname patch: a no-op, or an insertion of the
hostname line at a cut just after a newline in a string lacking the guard. -/
theorem hostNamePatch_cases (n s : GoStr) :
    hostNamePatch n s = s
    ∨ ∃ pos, (s.take pos).getLast? = some 10
        ∧ hostNamePatch n s = s.take pos ++ hostLine (hostnameOf n) ++ s.drop pos
        ∧ containsSub s (str "networking.hostName") = false := by
  unfold hostNamePatch
  by_cases hg : containsSub s (str "networking.hostName") = true
  · rw [if_pos hg]
    exact Or.inl rfl
  · rw [if_neg hg]
    rcases hidx : indexOfSub s (str "imports = [") with _ | idx
    · exact Or.inl rfl
    · try dsimp only
      rcases hnl : indexOfSub (s.drop idx) (str "\n") with _ | nl
      · exact Or.inl rfl
      · try dsimp only
        right
        refine ⟨idx + nl + 1, ?_, rfl, by simpa using hg⟩
        have hpre := indexOfSub_spec hnl
        rw [List.drop_drop] at hpre
        exact take_getLast_newline hpre

/-- Base64 alphabet bytes are never CR, LF, or the padding byte. -/
theorem b64Char_facts (n : Nat) : b64Char n ≠ 13 ∧ b64Char n ≠ 10 ∧ b64Char n ≠ 61 := by
  unfold b64Char
  split_ifs <;> refine ⟨by omega, by omega, by omega⟩

/-- Decoding a 6-bit group's alphabet byte recovers the group. -/
theorem b64Index_b64Char : ∀ n, n < 64 → b64Index (b64Char n) = some n := by decide

/-- Alphabet values are 6-bit groups. -/
theorem b64Index_lt {c a : Nat} (h : b64Index c = some a) : a < 64 := by
  unfold b64Index at h
  split_ifs at h <;> first
  | (injection h with h0; omega)
  | cases h

/-- Encoded blobs contain no carriage return and no newline. -/
theorem b64Encode_no_crlf (l : List Nat) :
    ∀ x ∈ b64Encode l, x ≠ 13 ∧ x ≠ 10 := by
  induction l using b64Encode.induct with
  | case1 =>
    intro x hx
    simp [b64Encode] at hx
  | case2 b1 =>
    intro x hx
    unfold b64Encode at hx
    simp only [List.mem_cons, List.not_mem_nil, or_false] at hx
    rcases hx with rfl | rfl | rfl | rfl
    · exact ⟨(b64Char_facts _).1, (b64Char_facts _).2.1⟩
    · exact ⟨(b64Char_facts _).1, (b64Char_facts _).2.1⟩
    · exact ⟨by omega, by omega⟩
    · exact ⟨by omega, by omega⟩
  | case3 b1 b2 =>
    intro x hx
    unfold b64Encode at hx
    simp only [List.mem_cons, List.not_mem_nil, or_false] at hx
    rcases hx with rfl | rfl | rfl | rfl
    · exact ⟨(b64Char_facts _).1, (b64Char_facts _).2.1⟩
    · exact ⟨(b64Char_facts _).1, (b64Char_facts _).2.1⟩
    · exact ⟨(b64Char_facts _).1, (b64Char_facts _).2.1⟩
    · exact ⟨by omega, by omega⟩
  | case4 b1 b2 b3 rest ih =>
    intro x hx
    unfold b64Encode at hx
    simp only [List.mem_cons] at hx
    rcases hx with rfl | rfl | rfl | rfl | hx
    · exact ⟨(b64Char_facts _).1, (b64Char_facts _).2.1⟩
    · exact ⟨(b64Char_facts _).1, (b64Char_facts _).2.1⟩
    · exact ⟨(b64Char_facts _).1, (b64Char_facts _).2.1⟩
    · exact ⟨(b64Char_facts _).1, (b64Char_facts _).2.1⟩
    · exact ih x hx

/-- The decode-side CRLF strip is the identity on encoded blobs. -/
theorem b64Encode_filter (l : List Nat) :
    (b64Encode l).filter (fun c => !(c == 13) && !(c == 10)) = b64Encode l := by
  apply List.filter_eq_self.mpr
  intro x hx
  have hf := b64Encode_no_crlf l x hx
  simp only [Bool.and_eq_true, Bool.not_eq_true', beq_eq_false_iff_ne]
  exact ⟨hf.1, hf.2⟩

/-- Decoding quantums inverts encoding on byte sequences. -/
theorem b64DecodeQuantums_b64Encode (l : List Nat) (h : ∀ b ∈ l, b < 256) :
    b64DecodeQuantums (b64Encode l) = some l := by
  induction l using b64Encode.induct with
  | case1 => rfl
  | case2 b1 =>
    have hb1 : b1 < 256 := h b1 (by simp)
    unfold b64Encode b64DecodeQuantums
    rw [b64Index_b64Char _ (by omega), b64Index_b64Char _ (by omega)]
    try dsimp only
    rw [if_pos rfl, if_pos ⟨rfl, rfl⟩]
    have harith : b1 / 4 * 4 + b1 % 4 * 16 / 16 = b1 := by omega
    rw [harith]
  | case3 b1 b2 =>
    have hb1 : b1 < 256 := h b1 (by simp)
    have hb2 : b2 < 256 := h b2 (by simp)
    unfold b64Encode b64DecodeQuantums
    rw [b64Index_b64Char _ (by omega), b64Index_b64Char _ (by omega)]
    try dsimp only
    rw [if_neg (b64Char_facts _).2.2, b64Index_b64Char _ (by omega)]
    try dsimp only
    rw [if_pos rfl, if_pos rfl]
    have harith1 : b1 / 4 * 4 + (b1 % 4 * 16 + b2 / 16) / 16 = b1 := by omega
    have harith2 : (b1 % 4 * 16 + b2 / 16) % 16 * 16 + b2 % 16 * 4 / 4 = b2 := by omega
    rw [harith1, harith2]
  | case4 b1 b2 b3 rest ih =>
    have hb1 : b1 < 256 := h b1 (by simp)
    have hb2 : b2 < 256 := h b2 (by simp)
    have hb3 : b3 < 256 := h b3 (by simp)
    have hrest : ∀ b ∈ rest, b < 256 := fun b hb => h b (by simp [hb])
    unfold b64Encode b64DecodeQuantums
    rw [b64Index_b64Char _ (by omega), b64Index_b64Char _ (by omega)]
    try dsimp only
    rw [if_neg (b64Char_facts _).2.2, b64Index_b64Char _ (by omega)]
    try dsimp only
    rw [if_neg (b64Char_facts _).2.2, b64Index_b64Char _ (by omega)]
    try dsimp only
    rw [ih hrest]
    try dsimp only
    have harith1 : b1 / 4 * 4 + (b1 % 4 * 16 + b2 / 16) / 16 = b1 := by omega
    have harith2 : (b1 % 4 * 16 + b2 / 16) % 16 * 16 + (b2 % 16 * 4 + b3 / 64) / 4 = b2 := by
      omega
    have harith3 : (b2 % 16 * 4 + b3 / 64) % 4 * 64 + b3 % 64 = b3 := by omega
    rw [harith1, harith2, harith3]
    rfl

/-- Decoding inverts encoding on byte sequences. -/
theorem b64_roundtrip (l : List Nat) (h : ∀ b ∈ l, b < 256) :
    b64Decode (b64Encode l) = some l := by
  unfold b64Decode
  rw [b64Encode_filter]
  exact b64DecodeQuantums_b64Encode l h

/-- Decoded bytes are below 256. -/
theorem b64DecodeQuantums_lt (s : List Nat) : ∀ out, b64DecodeQuantums s = some out →
    ∀ x ∈ out, x < 256 := by
  induction s using b64DecodeQuantums.induct with
  | case1 =>
    intro out hout x hx
    injection hout with h0
    subst h0
    simp at hx
  | case2 c1 c2 c4 rest a b hb ha hcr =>
    intro out hout x hx
    unfold b64DecodeQuantums at hout
    rw [ha, hb] at hout
    try dsimp only at hout
    rw [if_pos rfl, if_pos hcr] at hout
    injection hout with h0
    subst h0
    have ha2 := b64Index_lt ha
    have hb2 := b64Index_lt hb
    simp at hx
    omega
  | case3 c1 c2 c4 rest a b hb ha hcr =>
    intro out hout x hx
    unfold b64DecodeQuantums at hout
    rw [ha, hb] at hout
    try dsimp only at hout
    rw [if_pos rfl, if_neg hcr] at hout
    cases hout
  | case4 c1 c2 c3 a b hb ha hc3 d hd =>
    intro out hout x hx
    unfold b64DecodeQuantums at hout
    rw [ha, hb] at hout
    try dsimp only at hout
    rw [if_neg hc3, hd] at hout
    try dsimp only at hout
    rw [if_pos rfl, if_pos rfl] at hout
    injection hout with h0
    subst h0
    have ha2 := b64Index_lt ha
    have hb2 := b64Index_lt hb
    have hd2 := b64Index_lt hd
    simp at hx
    omega
  | case5 c1 c2 c3 rest a b hb ha hc3 d hd hrest =>
    intro out hout x hx
    unfold b64DecodeQuantums at hout
    rw [ha, hb] at hout
    try dsimp only at hout
    rw [if_neg hc3, hd] at hout
    try dsimp only at hout
    rw [if_pos rfl, if_neg hrest] at hout
    cases hout
  | case6 c1 c2 c3 c4 rest a b hb ha hc3 d3 hd3 hc4 d4 hd4 ih =>
    intro out hout x hx
    unfold b64DecodeQuantums at hout
    rw [ha, hb] at hout
    try dsimp only at hout
    rw [if_neg hc3, hd3] at hout
    try dsimp only at hout
    rw [if_neg hc4, hd4] at hout
    try dsimp only at hout
    rcases hq : b64DecodeQuantums rest with _ | tail
    · rw [hq] at hout
      cases hout
    · rw [hq] at hout
      injection hout with h0
      subst h0
      have ha2 := b64Index_lt ha
      have hb2 := b64Index_lt hb
      have hd32 := b64Index_lt hd3
      have hd42 := b64Index_lt hd4
      rcases List.mem_cons.mp hx with rfl | hx
      · omega
      · rcases List.mem_cons.mp hx with rfl | hx
        · omega
        · rcases List.mem_cons.mp hx with rfl | hx
          · omega
          · exact ih tail hq x hx
  | case7 c1 c2 c3 c4 rest a b hb ha hc3 d3 hd3 hc4 hd4 =>
    intro out hout x hx
    unfold b64DecodeQuantums at hout
    rw [ha, hb] at hout
    try dsimp only at hout
    rw [if_neg hc3, hd3] at hout
    try dsimp only at hout
    rw [if_neg hc4, hd4] at hout
    cases hout
  | case8 c1 c2 c3 c4 rest a b hb ha hc3 hd3 =>
    intro out hout x hx
    unfold b64DecodeQuantums at hout
    rw [ha, hb] at hout
    try dsimp only at hout
    rw [if_neg hc3, hd3] at hout
    cases hout
  | case9 c1 c2 c3 c4 rest hno =>
    intro out hout x hx
    unfold b64DecodeQuantums at hout
    rcases h1 : b64Index c1 with _ | a
    · rw [h1] at hout
      cases hout
    · rcases h2 : b64Index c2 with _ | b
      · rw [h1, h2] at hout
        cases hout
      · exact absurd (hno a b h1 h2) (by simp)
  | case10 t hne hshape =>
    intro out hout x hx
    rcases t with _ | ⟨a, _ | ⟨b, _ | ⟨c, _ | ⟨d, r⟩⟩⟩⟩
    · exact (hne rfl).elim
    · cases hout
    · cases hout
    · cases hout
    · exact (hshape a b c d r rfl).elim


/-- Bytes of a successfully decoded blob are below 256. -/
theorem b64Decode_lt {s out : List Nat} (h : b64Decode s = some out) :
    ∀ x ∈ out, x < 256 := by
  unfold b64Decode at h
  exact b64DecodeQuantums_lt _ out h

/-- The three insertions preserve byte bounds. -/
theorem nixPipeline_lt (n c : GoStr) (hc : ∀ x ∈ c, x < 256) :
    ∀ x ∈ nixPipeline n c, x < 256 := by
  have hm : ∀ x ∈ modulesPathPatch c, x < 256 := by
    intro x hx
    unfold modulesPathPatch at hx
    by_cases hg : containsSub c (str "modulesPath") = true
    · rw [if_pos hg] at hx
      exact hc x hx
    · rw [if_neg hg] at hx
      rcases replaceFirst_mem hx with hx | hx
      · exact hc x hx
      · have hall : ∀ y ∈ nixArgsNew, y < 256 := by decide
        exact hall x hx
  have ha : ∀ x ∈ amazonImagePatch (modulesPathPatch c), x < 256 := by
    intro x hx
    unfold amazonImagePatch at hx
    by_cases hg : containsSub (modulesPathPatch c) (str "amazon-image.nix") = true
    · rw [if_pos hg] at hx
      exact hm x hx
    · rw [if_neg hg] at hx
      rcases replaceFirst_mem hx with hx | hx
      · exact hm x hx
      · have hall : ∀ y ∈ importsInsert, y < 256 := by decide
        exact hall x hx
  intro x hx
  unfold nixPipeline at hx
  rcases hostNamePatch_cases n (amazonImagePatch (modulesPathPatch c)) with he | ⟨pos, _, he, _⟩
  · rw [he] at hx
    exact ha x hx
  · rw [he] at hx
    rcases List.mem_append.mp hx with hx | hx
    · rcases List.mem_append.mp hx with hx | hx
      · exact ha x (List.mem_of_mem_take hx)
      · exact hostLine_lt _ x hx
    · exact ha x (List.mem_of_mem_drop hx)

/-- Decompositions of the three-byte brace anchor into two nonempty parts. -/
theorem braceAnchor_parts {p1 p2 : GoStr} (h : ([10, 123, 10] : GoStr) = p1 ++ p2)
    (hp1 : p1 ≠ []) (hp2 : p2 ≠ []) :
    (p1 = [10] ∧ p2 = [123, 10]) ∨ (p1 = [10, 123] ∧ p2 = [10]) := by
  rcases p1 with _ | ⟨x1, _ | ⟨x2, _ | ⟨x3, p1r⟩⟩⟩
  · exact absurd rfl hp1
  · left
    have h2 : (10 : Nat) :: [123, 10] = x1 :: p2 := by simpa using h
    obtain ⟨h3, h4⟩ := (List.cons.injEq _ _ _ _).mp h2
    exact ⟨by rw [← h3], h4.symm⟩
  · right
    have h2 : (10 : Nat) :: 123 :: [10] = x1 :: x2 :: p2 := by simpa using h
    obtain ⟨h3, h5⟩ := (List.cons.injEq _ _ _ _).mp h2
    obtain ⟨h4, h6⟩ := (List.cons.injEq _ _ _ _).mp h5
    exact ⟨by rw [← h3, ← h4], h6.symm⟩
  · exfalso
    have hlen := congrArg List.length h
    simp only [List.length_append, List.length_cons, List.length_nil] at hlen
    rcases p2 with _ | ⟨y, ys⟩
    · exact hp2 rfl
    · simp only [List.length_cons] at hlen
      omega

/-- The brace anchor cannot be created by inserting the hostname line at a
newline cut: an occurrence around the insertion yields one without it. -/
theorem braceAnchor_transfer {u v : GoStr} (h10 : u.getLast? = some 10)
    (hn : GoStr) (hocc : braceAnchor <:+: u ++ hostLine hn ++ v) :
    braceAnchor <:+: u ++ v := by
  have hba : braceAnchor = [10, 123, 10] := by decide
  have hlne : hostLine hn ≠ [] := by
    obtain ⟨w, hw⟩ := List.getLast?_eq_some_iff.mp (hostLine_getLast hn)
    rw [hw]
    simp
  rw [hba] at hocc ⊢
  rcases occurrence_split hocc with h | h | ⟨p1, p2, hpp, hp1, hp2, hp1s, hp2p⟩
  · rcases occurrence_split h with h | h | ⟨p1, p2, hpp, hp1, hp2, hp1s, hp2p⟩
    · exact infix_of_left v h
    · exfalso
      have hcnt := h.sublist.count_le 10
      rw [hostLine_count_newline] at hcnt
      have h2cnt : ([10, 123, 10] : GoStr).count 10 = 2 := by decide
      omega
    · exfalso
      obtain ⟨w, hw⟩ := hp1s
      have hlast : p1.getLast? = some 10 := by
        rw [← hw, List.getLast?_append_of_ne_nil w hp1] at h10
        exact h10
      rcases braceAnchor_parts hpp hp1 hp2 with ⟨h1, h2⟩ | ⟨h1, h2⟩
      · obtain ⟨w2, hw2⟩ := hp2p
        rw [h2] at hw2
        have hhead := hostLine_head hn
        rw [← hw2] at hhead
        simp at hhead
      · rw [h1] at hlast
        simp at hlast
  · exact infix_of_right u h
  · obtain ⟨w, hw⟩ := hp1s
    have hul : (u ++ hostLine hn).getLast? = some 10 := by
      rw [List.getLast?_append_of_ne_nil u hlne]
      exact hostLine_getLast hn
    have hlast : p1.getLast? = some 10 := by
      rw [← hw, List.getLast?_append_of_ne_nil w hp1] at hul
      exact hul
    rcases braceAnchor_parts hpp hp1 hp2 with ⟨h1, h2⟩ | ⟨h1, h2⟩
    · obtain ⟨w2, hw2⟩ := hp2p
      rw [h2] at hw2
      obtain ⟨u2, hu2⟩ := List.getLast?_eq_some_iff.mp h10
      refine ⟨u2, w2, ?_⟩
      rw [hu2, ← hw2]
      simp
    · rw [h1] at hlast
      simp at hlast

/-- After the modulesPath stage the pattern is present or permanently
absent. -/
theorem modulesPathPatch_post (c : GoStr) :
    containsSub (modulesPathPatch c) (str "modulesPath") = true
    ∨ (containsSub (modulesPathPatch c) (str "modulesPath") = false
        ∧ ¬ nixArgsOld <:+: modulesPathPatch c) := by
  unfold modulesPathPatch
  by_cases hg : containsSub c (str "modulesPath") = true
  · rw [if_pos hg]
    exact Or.inl hg
  · rw [if_neg hg]
    by_cases hocc : nixArgsOld <:+: c
    · left
      obtain ⟨pre, post, _, hr⟩ := replaceFirst_decomp nixArgsNew (by decide) hocc
      rw [hr]
      apply (containsSub_iff _ _).mpr
      exact infix_of_left post (infix_of_right pre ((containsSub_iff _ _).mp (by decide)))
    · right
      rw [replaceFirst_skip nixArgsNew (by decide) hocc]
      exact ⟨by simpa using hg, hocc⟩

/-- After the import stage the import is present or permanently absent,
and the modulesPath facts survive. -/
theorem amazonImagePatch_post (m : GoStr) :
    (containsSub (amazonImagePatch m) (str "amazon-image.nix") = true
      ∨ (containsSub (amazonImagePatch m) (str "amazon-image.nix") = false
          ∧ ¬ braceAnchor <:+: amazonImagePatch m))
    ∧ (containsSub m (str "modulesPath") = true →
        containsSub (amazonImagePatch m) (str "modulesPath") = true)
    ∧ ((containsSub m (str "modulesPath") = false ∧ ¬ nixArgsOld <:+: m) →
        containsSub (amazonImagePatch m) (str "modulesPath") = true
        ∨ (containsSub (amazonImagePatch m) (str "modulesPath") = false
            ∧ ¬ nixArgsOld <:+: amazonImagePatch m)) := by
  unfold amazonImagePatch
  by_cases hg : containsSub m (str "amazon-image.nix") = true
  · rw [if_pos hg]
    exact ⟨Or.inl hg, fun h => h, fun h => Or.inr h⟩
  · rw [if_neg hg]
    by_cases hocc : braceAnchor <:+: m
    · obtain ⟨pre, post, _, hr⟩ := replaceFirst_decomp importsInsert (by decide) hocc
      rw [hr]
      have hmp : containsSub (pre ++ importsInsert ++ post) (str "modulesPath") = true := by
        apply (containsSub_iff _ _).mpr
        exact infix_of_left post (infix_of_right pre ((containsSub_iff _ _).mp (by decide)))
      refine ⟨Or.inl ?_, fun _ => hmp, fun _ => Or.inl hmp⟩
      apply (containsSub_iff _ _).mpr
      exact infix_of_left post (infix_of_right pre ((containsSub_iff _ _).mp (by decide)))
    · rw [replaceFirst_skip importsInsert (by decide) hocc]
      exact ⟨Or.inr ⟨by simpa using hg, hocc⟩, fun h => h, fun h => Or.inr h⟩

/-- The patch pipeline is stable on its own output when the quoted
hostname line does not contain the function-header pattern. -/
theorem nixPipeline_stable (n c : GoStr)
    (hq : containsSub (hostLine (hostnameOf n)) nixArgsOld = false) :
    nixPipeline n (nixPipeline n c) = nixPipeline n c := by
  have hA1 : containsSub (amazonImagePatch (modulesPathPatch c)) (str "modulesPath") = true
      ∨ (containsSub (amazonImagePatch (modulesPathPatch c)) (str "modulesPath") = false
          ∧ ¬ nixArgsOld <:+: amazonImagePatch (modulesPathPatch c)) := by
    rcases modulesPathPatch_post c with h | h
    · exact Or.inl ((amazonImagePatch_post (modulesPathPatch c)).2.1 h)
    · exact (amazonImagePatch_post (modulesPathPatch c)).2.2 h
  have hA2 := (amazonImagePatch_post (modulesPathPatch c)).1
  have hS1of : ∀ s : GoStr,
      (containsSub s (str "modulesPath") = true ∨ ¬ nixArgsOld <:+: s) →
      modulesPathPatch s = s := by
    intro s hs
    unfold modulesPathPatch
    rcases hs with hs | hs
    · rw [if_pos hs]
    · by_cases hg : containsSub s (str "modulesPath") = true
      · rw [if_pos hg]
      · rw [if_neg hg]
        exact replaceFirst_skip nixArgsNew (by decide) hs
  have hS2of : ∀ s : GoStr,
      (containsSub s (str "amazon-image.nix") = true ∨ ¬ braceAnchor <:+: s) →
      amazonImagePatch s = s := by
    intro s hs
    unfold amazonImagePatch
    rcases hs with hs | hs
    · rw [if_pos hs]
    · by_cases hg : containsSub s (str "amazon-image.nix") = true
      · rw [if_pos hg]
      · rw [if_neg hg]
        exact replaceFirst_skip importsInsert (by decide) hs
  rcases hostNamePatch_cases n (amazonImagePatch (modulesPathPatch c))
    with hnop | ⟨pos, hcut, hins, _⟩
  · unfold nixPipeline
    rw [hnop]
    rw [hS1of _ ?hmp]
    case hmp =>
      rcases hA1 with h | ⟨_, h⟩
      · exact Or.inl h
      · exact Or.inr h
    rw [hS2of _ ?hai]
    case hai =>
      rcases hA2 with h | ⟨_, h⟩
      · exact Or.inl h
      · exact Or.inr h
    exact hnop
  · have hka := (List.take_append_drop pos (amazonImagePatch (modulesPathPatch c))).symm
    have htransfer : ∀ pat : GoStr, 10 ∉ pat →
        pat <:+: amazonImagePatch (modulesPathPatch c) →
        pat <:+: (amazonImagePatch (modulesPathPatch c)).take pos
          ++ hostLine (hostnameOf n) ++ (amazonImagePatch (modulesPathPatch c)).drop pos := by
      intro pat hnl hpa
      rw [hka] at hpa
      rcases (nlf_append_iff hnl hcut).mp hpa with h2 | h2
      · exact infix_of_left _ (infix_of_left _ h2)
      · exact infix_of_right _ h2
    unfold nixPipeline
    rw [hins]
    have hS1 : modulesPathPatch
        ((amazonImagePatch (modulesPathPatch c)).take pos
          ++ hostLine (hostnameOf n) ++ (amazonImagePatch (modulesPathPatch c)).drop pos) =
        (amazonImagePatch (modulesPathPatch c)).take pos
          ++ hostLine (hostnameOf n) ++ (amazonImagePatch (modulesPathPatch c)).drop pos := by
      apply hS1of
      rcases hA1 with h | ⟨_, h⟩
      · exact Or.inl ((containsSub_iff _ _).mpr
          (htransfer _ (by decide) ((containsSub_iff _ _).mp h)))
      · right
        intro hocc
        rcases nlf_insert (by decide) hcut (hostLine_getLast _) hocc with h3 | h3 | h3
        · exact h (h3.trans (List.take_prefix pos _).isInfix)
        · exact (containsSub_eq_false _ _).mp hq h3
        · exact h (h3.trans (List.drop_suffix pos _).isInfix)
    rw [hS1]
    have hS2 : amazonImagePatch
        ((amazonImagePatch (modulesPathPatch c)).take pos
          ++ hostLine (hostnameOf n) ++ (amazonImagePatch (modulesPathPatch c)).drop pos) =
        (amazonImagePatch (modulesPathPatch c)).take pos
          ++ hostLine (hostnameOf n) ++ (amazonImagePatch (modulesPathPatch c)).drop pos := by
      apply hS2of
      rcases hA2 with h | ⟨_, h⟩
      · exact Or.inl ((containsSub_iff _ _).mpr
          (htransfer _ (by decide) ((containsSub_iff _ _).mp h)))
      · right
        intro hocc
        have hback := braceAnchor_transfer hcut (hostnameOf n) hocc
        rw [← hka] at hback
        exact h hback
    rw [hS2]
    unfold hostNamePatch
    rw [if_pos ?hguard]
    case hguard =>
      apply (containsSub_iff _ _).mpr
      exact infix_of_left _ (infix_of_right _ (hostLine_has_guard (hostnameOf n)))

/-- C9 counterexample: with a spawn name containing the nix function
header, the first application inserts the quoted header verbatim in the
hostname line, and a second application rewrites it via the modulesPath
insertion, so double application differs from single application. -/
theorem patchNixOSUserData_not_idempotent :
    patchNixOSUserData
        (patchNixOSUserData
          (b64Encode (str "\x7b config, pkgs \x7d:\nimports = [ ];\n"))
          (str "\x7b config, pkgs, lib, ... \x7d:"))
        (str "\x7b config, pkgs, lib, ... \x7d:")
      ≠ patchNixOSUserData
          (b64Encode (str "\x7b config, pkgs \x7d:\nimports = [ ];\n"))
          (str "\x7b config, pkgs, lib, ... \x7d:") := by decide

/-- C9 (amended): patchNixOSUserData is total — it returns its input
unchanged on a base64 decode error and on content lacking the
"config, pkgs" marker — and it is idempotent whenever the inserted
hostname line does not itself contain the nix function-header pattern the
modulesPath insertion looks for; without that proviso a second application
can rewrite the quoted hostname, so the function is not idempotent in
general. -/
theorem patchNixOSUserData_spec (b64data n : GoStr)
    (hq : containsSub (hostLine (hostnameOf n)) nixArgsOld = false) :
    (b64Decode b64data = none → patchNixOSUserData b64data n = b64data)
    ∧ (∀ content, b64Decode b64data = some content →
        containsSub content (str "config, pkgs") = false →
        patchNixOSUserData b64data n = b64data)
    ∧ patchNixOSUserData (patchNixOSUserData b64data n) n =
        patchNixOSUserData b64data n := by
  refine ⟨?_, ?_, ?_⟩
  · intro h
    unfold patchNixOSUserData
    rw [h]
  · intro content h hc
    unfold patchNixOSUserData
    rw [h]
    try dsimp only
    rw [if_pos hc]
  · rcases hd : b64Decode b64data with _ | content
    · have h1 : patchNixOSUserData b64data n = b64data := by
        unfold patchNixOSUserData
        rw [hd]
      rw [h1, h1]
    · by_cases hcp : containsSub content (str "config, pkgs") = false
      · have h1 : patchNixOSUserData b64data n = b64data := by
          unfold patchNixOSUserData
          rw [hd]
          try dsimp only
          rw [if_pos hcp]
        rw [h1, h1]
      · have h1 : patchNixOSUserData b64data n = b64Encode (nixPipeline n content) := by
          unfold patchNixOSUserData
          rw [hd]
          try dsimp only
          rw [if_neg hcp]
        rw [h1]
        have hcontent_lt := b64Decode_lt hd
        have hp_lt := nixPipeline_lt n content hcontent_lt
        have hrt : b64Decode (b64Encode (nixPipeline n content)) =
            some (nixPipeline n content) := b64_roundtrip _ hp_lt
        unfold patchNixOSUserData
        rw [hrt]
        try dsimp only
        by_cases hcp2 : containsSub (nixPipeline n content) (str "config, pkgs") = false
        · rw [if_pos hcp2]
        · rw [if_neg hcp2, nixPipeline_stable n content hq]

/-- Witness for the amended C9: at a concrete blob and an ordinary spawn
name the hypothesis holds and double application equals single
application. -/
theorem patchNixOSUserData_spec_witness :
    containsSub (hostLine (hostnameOf (str "box"))) nixArgsOld = false
    ∧ patchNixOSUserData
        (patchNixOSUserData (b64Encode (str "\x7b config, pkgs \x7d:\nimports = [ ];\n"))
          (str "box"))
        (str "box")
      = patchNixOSUserData (b64Encode (str "\x7b config, pkgs \x7d:\nimports = [ ];\n"))
        (str "box") :=
  ⟨by decide,
   (patchNixOSUserData_spec (b64Encode (str "\x7b config, pkgs \x7d:\nimports = [ ];\n"))
      (str "box") (by decide)).2.2⟩
